import Mathlib

/-!
# CPU frequency collector: topology discovery and sampling

A shallow embedding of `collectors/cpufreqMetric.go` (`CPUFreqCollector.Init`,
`CPUFreqCollector.Read`, `CPUFreqCollector.Close`) together with the Go library
functions it calls, followed by theorems about the embedding.

Conventions of the embedding:

* a Go `string` is a Lean `String`; a Go slice is a `List`;
* a Go `map` is an association list with distinct keys (`mapLookup`, `mapInsert`,
  `mapLen`); a missing key reads as the zero value;
* `int64` values are `Int`; `strconv.ParseInt` enforces the 64 bit range, and the only
  arithmetic on them is a counter bounded by the length of a slice, so no wrap-around
  can occur;
* the world outside the process (file system, clock) is a value of type `FS`;
* a method with a pointer receiver returns the new receiver next to its result `Exit`,
  which is a returned `error` value or a run-time panic.
-/

namespace CPUFreq

/-! ## Go library functions -/

/-- Go `unicode.IsSpace`: the Latin-1 spaces and the code points with the Unicode
`White_Space` property. -/
def isSpace (c : Char) : Bool :=
  c.toNat == 0x09 || c.toNat == 0x0A || c.toNat == 0x0B || c.toNat == 0x0C ||
  c.toNat == 0x0D || c.toNat == 0x20 || c.toNat == 0x85 || c.toNat == 0xA0 ||
  c.toNat == 0x1680 || (0x2000 ≤ c.toNat && c.toNat ≤ 0x200A) ||
  c.toNat == 0x2028 || c.toNat == 0x2029 || c.toNat == 0x202F ||
  c.toNat == 0x205F || c.toNat == 0x3000

/-- Go `strings.TrimSpace`: all leading and trailing white space removed. -/
def TrimSpace (s : String) : String :=
  String.mk ((s.data.dropWhile isSpace).reverse.dropWhile isSpace).reverse

/-- Go `strings.TrimPrefix s p`: `s` without the leading `p`, or `s` itself when `s`
does not start with `p`. -/
def TrimPrefix (s p : String) : String :=
  if p.data.isPrefixOf s.data then String.mk (s.data.drop p.data.length) else s

/-- The two `strconv.NumError` causes. -/
inductive NumError where
  | ErrSyntax
  | ErrRange
deriving DecidableEq, Repr

/-- Value of a decimal digit; `none` for every other character (in base 10 a letter is
a digit value of at least 10, which `ParseUint` rejects like any other character). -/
def digitValue (c : Char) : Option Nat :=
  if 48 ≤ c.toNat ∧ c.toNat ≤ 57 then some (c.toNat - 48) else none

/-- The digit loop of `strconv.ParseUint(s, 10, 64)`: a character that is no digit is a
syntax error, a value that no longer fits 64 bits a range error. -/
def parseDigits : List Char → Nat → Except NumError Nat
  | [], n => .ok n
  | c :: cs, n =>
    match digitValue c with
    | none => .error .ErrSyntax
    | some d => if n * 10 + d < 2 ^ 64 then parseDigits cs (n * 10 + d) else .error .ErrRange

/-- Go `strconv.ParseUint(s, 10, 64)`. -/
def ParseUint (s : List Char) : Except NumError Nat :=
  match s with
  | [] => .error .ErrSyntax
  | _ => parseDigits s 0

/-- The sign and range handling of `strconv.ParseInt(s, 10, 64)` around `ParseUint`. -/
def parseSigned (neg : Bool) (digits : List Char) : Except NumError Int :=
  match ParseUint digits with
  | .error e => .error e
  | .ok un =>
    if !neg && 2 ^ 63 ≤ un then .error .ErrRange
    else if neg && 2 ^ 63 < un then .error .ErrRange
    else .ok (if neg then -(un : Int) else (un : Int))

/-- Go `strconv.ParseInt(s, 10, 64)`. -/
def ParseInt (s : String) : Except NumError Int :=
  match s.data with
  | [] => .error .ErrSyntax
  | c :: cs =>
    if c = '+' then parseSigned false cs
    else if c = '-' then parseSigned true cs
    else parseSigned false (c :: cs)

/-- Go `fmt.Sprint` of one `int64`: its decimal rendering. -/
def Sprint (n : Int) : String := toString n

/-- Go `filepath.Join` of two elements, on the paths this collector joins: `dir` is
a cleaned path and `a` a plain name, so the result is the two separated by a slash. -/
def Join2 (dir a : String) : String := dir ++ "/" ++ a

/-- Go `filepath.Join` of three elements, as `Join2`. -/
def Join3 (dir a b : String) : String := dir ++ "/" ++ a ++ "/" ++ b

/-! ## Go maps -/

/-- Read `m[k]`; a missing key gives the zero value `dflt`. -/
def mapLookup {κ ν : Type} [DecidableEq κ] (m : List (κ × ν)) (k : κ) (dflt : ν) : ν :=
  match m with
  | [] => dflt
  | (k', v) :: rest => if k' = k then v else mapLookup rest k dflt

/-- Assignment `m[k] = v`. -/
def mapInsert {κ ν : Type} [DecidableEq κ] (m : List (κ × ν)) (k : κ) (v : ν) : List (κ × ν) :=
  match m with
  | [] => [(k, v)]
  | (k', v') :: rest => if k' = k then (k, v) :: rest else (k', v') :: mapInsert rest k v

/-- Go `len(m)`. -/
def mapLen {κ ν : Type} (m : List (κ × ν)) : Nat := m.length

/-! ## The world outside the process -/

/-- State of the file system and the clock at the time of one call. -/
structure FS where
  /-- Result of `filepath.Glob(pattern)`: the matching paths, or an error. -/
  glob : String → Except String (List String)
  /-- Result of reading the named file: its content, or an error. -/
  readFile : String → Except String String
  /-- Result of `access(2)` with `R_OK` on the named file. -/
  access : String → Except String Unit
  /-- Reading of the wall clock. -/
  now : Nat

/-- Go `os.ReadFile`. The empty path names no file: `open` fails with `ENOENT`. -/
def osReadFile (fs : FS) (path : String) : Except String String :=
  if path = "" then .error "open : no such file or directory" else fs.readFile path

/-- Go `unix.Access(path, unix.R_OK)`. The empty path names no file. -/
def unixAccess (fs : FS) (path : String) : Except String Unit :=
  if path = "" then .error "no such file or directory" else fs.access path

/-! ## Data model -/

/-- The struct `CPUFreqCollectorTopology`; the field defaults are the Go zero values. -/
structure CPUFreqCollectorTopology where
  processor : String := ""
  coreID : String := ""
  coreID_int : Int := 0
  physicalPackageID : String := ""
  physicalPackageID_int : Int := 0
  numPhysicalPackages : String := ""
  numPhysicalPackages_int : Int := 0
  isHT : Bool := false
  numNonHT : String := ""
  numNonHT_int : Int := 0
  scalingCurFreqFile : String := ""
  tagSet : List (String × String) := []
deriving DecidableEq, Repr, Inhabited

/-- The anonymous struct of the field `config`. -/
structure Config where
  ExcludeMetrics : List String := []
deriving DecidableEq, Repr, Inhabited

/-- The fields of the embedded struct `metricCollector` that the collector uses. -/
structure metricCollector where
  name : String := ""
  init : Bool := false
  meta : List (String × String) := []
  parallel : Bool := false
deriving DecidableEq, Repr, Inhabited

/-- The struct `CPUFreqCollector`. -/
structure CPUFreqCollector extends metricCollector where
  topology : List CPUFreqCollectorTopology := []
  config : Config := {}
deriving DecidableEq, Repr, Inhabited

/-- Modelled from the spec: the method `metricCollector.setup` is defined outside
`cpufreqMetric.go`. The spec gives `Init` no effect through it (the per-collector state
is the topology array and the init flag, both written by `Init` itself), so it leaves
the embedded struct as it is. -/
def setup (c : metricCollector) : metricCollector := c

/-- Modelled from the spec: the metric point type `lp.CCMetric` is defined outside
`cpufreqMetric.go`. Following the spec's MetricPoint, a point is the record of the name,
tags, meta, fields and timestamp it was constructed from; the only field value this
collector stores is an `int64`. -/
structure CCMetric where
  name : String
  tags : List (String × String)
  meta : List (String × String)
  fields : List (String × Int)
  tm : Nat
deriving DecidableEq, Repr

/-- Library code the collector calls and whose results it only tests for an error. -/
structure Lib where
  /-- Go `json.Unmarshal(config, &c)`: the value of `c` afterwards and the error. -/
  unmarshal : String → Config → Config × Option String
  /-- The error with which `lp.New` refuses to construct a point, if it does. -/
  newError : CCMetric → Option String

/-- Modelled from the spec: the constructor `lp.New` is defined outside
`cpufreqMetric.go`. It returns the point made of its arguments, or an error (the spec's
ConstructionError). -/
def lpNew (L : Lib) (name : String) (tags meta : List (String × String))
    (fields : List (String × Int)) (tm : Nat) : Except String CCMetric :=
  match L.newError ⟨name, tags, meta, fields, tm⟩ with
  | some e => .error e
  | none => .ok ⟨name, tags, meta, fields, tm⟩

/-- The errors `Init` returns, one constructor per `return` statement. -/
inductive InitError where
  | unmarshal (msg : String)
  | globFailed (pattern msg : String)
  | noFiles (pattern : String)
  | convCpuID (processor : String) (e : NumError)
  | readPackageID (file msg : String)
  | convPackageID (physicalPackageID : String) (e : NumError)
  | readCoreID (file msg : String)
  | convCoreID (coreID : String) (e : NumError)
  | accessFile (file msg : String)
deriving DecidableEq, Repr

/-- How a call of `Init` ends: it returns an `error` value (`none` is Go's `nil`), or
the run time panics on an index that is out of range for the slice length. -/
inductive Exit where
  | ret (err : Option InitError)
  | indexOutOfRange (index : Int) (len : Nat)
deriving DecidableEq, Repr

/-! ## `Init` -/

/-- What the first loop of `Init` reads for one CPU directory before it touches the
topology array. -/
structure Probe where
  processor : String
  processor_int : Int
  physicalPackageID : String
  physicalPackageID_int : Int
  coreID : String
  coreID_int : Int
  scalingCurFreqFile : String
deriving DecidableEq, Repr

/-- Body of the first loop of `Init` up to the access check: the processor
number from the directory name, the package ID, the core ID, and the access check of the
frequency file. -/
def probe (fs : FS) (cpuDir : String) : Except InitError Probe :=
  let processor := TrimPrefix cpuDir "/sys/devices/system/cpu/cpu"
  match ParseInt processor with
  | .error e => .error (.convCpuID processor e)
  | .ok processor_int =>
    let physicalPackageIDFile := Join3 cpuDir "topology" "physical_package_id"
    match osReadFile fs physicalPackageIDFile with
    | .error e => .error (.readPackageID physicalPackageIDFile e)
    | .ok line =>
      let physicalPackageID := TrimSpace line
      match ParseInt physicalPackageID with
      | .error e => .error (.convPackageID physicalPackageID e)
      | .ok physicalPackageID_int =>
        let coreIDFile := Join3 cpuDir "topology" "core_id"
        match osReadFile fs coreIDFile with
        | .error e => .error (.readCoreID coreIDFile e)
        | .ok line =>
          let coreID := TrimSpace line
          match ParseInt coreID with
          | .error e => .error (.convCoreID coreID e)
          | .ok coreID_int =>
            let scalingCurFreqFile := Join3 cpuDir "cpufreq" "scaling_cur_freq"
            match unixAccess fs scalingCurFreqFile with
            | .error e => .error (.accessFile scalingCurFreqFile e)
            | .ok _ =>
              .ok ⟨processor, processor_int, physicalPackageID, physicalPackageID_int,
                coreID, coreID_int, scalingCurFreqFile⟩

/-- The six assignments through `t := &m.topology[processor_int]`. -/
def store (p : Probe) (t : CPUFreqCollectorTopology) : CPUFreqCollectorTopology :=
  { t with
    processor := p.processor
    physicalPackageID := p.physicalPackageID
    physicalPackageID_int := p.physicalPackageID_int
    coreID := p.coreID
    coreID_int := p.coreID_int
    scalingCurFreqFile := p.scalingCurFreqFile }

/-- One iteration of the first loop of `Init`: an error return, a panic when
`processor_int` is no index of the array, or the array with the entry written. -/
def topologyStep (fs : FS) (cpuDir : String) (topology : List CPUFreqCollectorTopology) :
    Except Exit (List CPUFreqCollectorTopology) :=
  match probe fs cpuDir with
  | .error e => .error (.ret (some e))
  | .ok p =>
    if 0 ≤ p.processor_int ∧ p.processor_int < topology.length then
      .ok (topology.set p.processor_int.toNat (store p (topology.getD p.processor_int.toNat {})))
    else
      .error (.indexOutOfRange p.processor_int topology.length)

/-- The first loop of `Init`, over `cpuDirs` in the order of the slice. It stops at the
first iteration that does not complete and gives the array as it is then. -/
def topologyLoop (fs : FS) :
    List String → List CPUFreqCollectorTopology → List CPUFreqCollectorTopology × Option Exit
  | [], topology => (topology, none)
  | cpuDir :: rest, topology =>
    match topologyStep fs cpuDir topology with
    | .error stop => (topology, some stop)
    | .ok topology' => topologyLoop fs rest topology'

/-- The key `globalID := t.physicalPackageID + ":" + t.coreID` of the second loop of
`Init`. -/
def globalID (t : CPUFreqCollectorTopology) : String :=
  t.physicalPackageID ++ ":" ++ t.coreID

/-- The second loop of `Init`: an entry is a hyper-thread when its key `globalID` was
seen at a lower index. -/
def markHT : List CPUFreqCollectorTopology → List (String × Bool) → List CPUFreqCollectorTopology
  | [], _ => []
  | t :: rest, coreSeenBefore =>
    { t with isHT := mapLookup coreSeenBefore (globalID t) false } ::
      markHT rest (mapInsert coreSeenBefore (globalID t) true)

/-- The third loop of `Init`: the counter of entries that are no hyper-thread and
the set of package IDs. -/
def countLoop : List CPUFreqCollectorTopology → Int → List (Int × Unit) → Int × List (Int × Unit)
  | [], numNonHT_int, PhysicalPackageIDs => (numNonHT_int, PhysicalPackageIDs)
  | t :: rest, numNonHT_int, PhysicalPackageIDs =>
    countLoop rest (if !t.isHT then numNonHT_int + 1 else numNonHT_int)
      (mapInsert PhysicalPackageIDs t.physicalPackageID_int ())

/-- Body of the fourth loop of `Init`: both counts and the tag set written to an entry. -/
def annotate (numPhysicalPackageID_int numNonHT_int : Int) (t : CPUFreqCollectorTopology) :
    CPUFreqCollectorTopology :=
  { t with
    numPhysicalPackages := Sprint numPhysicalPackageID_int
    numPhysicalPackages_int := numPhysicalPackageID_int
    numNonHT := Sprint numNonHT_int
    numNonHT_int := numNonHT_int
    tagSet := [("type", "hwthread"), ("type-id", t.processor),
      ("package_id", t.physicalPackageID)] }

/-- The second, third and fourth loop of `Init` on the array the first loop filled. -/
def finishTopology (topology : List CPUFreqCollectorTopology) : List CPUFreqCollectorTopology :=
  let marked := markHT topology []
  let counts := countLoop marked 0 []
  marked.map (annotate (mapLen counts.2 : Int) counts.1)

/-- The method `CPUFreqCollector.Init`. -/
def Init (L : Lib) (fs : FS) (config : String) (m : CPUFreqCollector) :
    CPUFreqCollector × Exit :=
  if m.init then (m, .ret none)
  else
    let m1 : CPUFreqCollector := { m with name := "CPUFreqCollector" }
    let m2 : CPUFreqCollector := { m1 with tometricCollector := setup m1.tometricCollector }
    let m3 : CPUFreqCollector := { m2 with parallel := true }
    let parsed := if config.length > 0 then L.unmarshal config m3.config else (m3.config, none)
    let m4 : CPUFreqCollector := { m3 with config := parsed.1 }
    match parsed.2 with
    | some e => (m4, .ret (some (.unmarshal e)))
    | none =>
      let m5 : CPUFreqCollector :=
        { m4 with meta := [("source", m4.name), ("group", "CPU"), ("unit", "Hz")] }
      let baseDir := "/sys/devices/system/cpu"
      let globPattern := Join2 baseDir "cpu[0-9]*"
      match fs.glob globPattern with
      | .error e => (m5, .ret (some (.globFailed globPattern e)))
      | .ok cpuDirs =>
        if cpuDirs = [] then (m5, .ret (some (.noFiles globPattern)))
        else
          match topologyLoop fs cpuDirs (List.replicate cpuDirs.length {}) with
          | (topology, some stop) => ({ m5 with topology := topology }, stop)
          | (topology, none) =>
            ({ m5 with topology := finishTopology topology, init := true }, .ret none)

/-! ## `Read` and `Close` -/

/-- Body of the loop of `Read` for one entry: the point sent to `output`, if any. -/
def readEntry (L : Lib) (fs : FS) (m : CPUFreqCollector) (t : CPUFreqCollectorTopology) :
    Option CCMetric :=
  if t.isHT then none
  else
    match osReadFile fs t.scalingCurFreqFile with
    | .error _ => none
    | .ok line =>
      match ParseInt (TrimSpace line) with
      | .error _ => none
      | .ok cpuFreq =>
        match lpNew L "cpufreq" t.tagSet m.meta [("value", cpuFreq)] fs.now with
        | .error _ => none
        | .ok y => some y

/-- The method `CPUFreqCollector.Read`: the points sent to `output`, in order. -/
def Read (L : Lib) (fs : FS) (m : CPUFreqCollector) : List CCMetric :=
  if !m.init then []
  else m.topology.filterMap (readEntry L fs m)

/-- The method `CPUFreqCollector.Close`. -/
def Close (m : CPUFreqCollector) : CPUFreqCollector :=
  { m with init := false }

/-! ## Calls in sequence -/

/-- One call of a method of the collector. -/
inductive Call where
  | Init (fs : FS) (config : String)
  | Read (fs : FS)
  | Close

/-- The collector after a call. -/
def Call.after (L : Lib) (m : CPUFreqCollector) : Call → CPUFreqCollector
  | .Init fs config => (CPUFreq.Init L fs config m).1
  | .Read _ => m
  | .Close => CPUFreq.Close m

/-- The points a call sends to `output`. -/
def Call.emits (L : Lib) (m : CPUFreqCollector) : Call → List CCMetric
  | .Read fs => CPUFreq.Read L fs m
  | _ => []

/-- Whether the call is an `Init` that returns `nil`. -/
def Call.initSucceeds (L : Lib) (m : CPUFreqCollector) : Call → Bool
  | .Init fs config => decide ((CPUFreq.Init L fs config m).2 = .ret none)
  | _ => false

/-- All points emitted by a sequence of calls up to its first `Init` that succeeds. -/
def emittedUntilInit (L : Lib) : List Call → CPUFreqCollector → List CCMetric
  | [], _ => []
  | c :: rest, m =>
    if c.initSucceeds L m then []
    else c.emits L m ++ emittedUntilInit L rest (c.after L m)

/-- The collectors a program can hold: one that is not initialized, and what `Init` and
`Close` make of a collector it can hold (`Read` does not change the collector). -/
inductive Reachable (L : Lib) : CPUFreqCollector → Prop where
  | start (m : CPUFreqCollector) : m.init = false → Reachable L m
  | afterInit (fs : FS) (config : String) (m : CPUFreqCollector) :
      Reachable L m → Reachable L (Init L fs config m).1
  | afterClose (m : CPUFreqCollector) : Reachable L m → Reachable L (Close m)

/-- The topology arrays a successful `Init` builds. -/
def Built (topology : List CPUFreqCollectorTopology) : Prop :=
  ∃ (fs : FS) (cpuDirs : List String) (filled : List CPUFreqCollectorTopology),
    cpuDirs ≠ [] ∧
    topologyLoop fs cpuDirs (List.replicate cpuDirs.length {}) = (filled, none) ∧
    topology = finishTopology filled

/-! ## Example worlds -/

/-- Library behaviour in the examples: the configuration is accepted and left as it is,
and every point is constructed. -/
def libPlain : Lib where
  unmarshal := fun _ c => (c, none)
  newError := fun _ => none

/-- One CPU directory of an example file system: its name and the content of its three
attribute files (`none`: the frequency file cannot be read). -/
structure CPUDir where
  dirName : String
  physical_package_id : String
  core_id : String
  scaling_cur_freq : Option String

/-- Content of the named file in an example file system. -/
def sysfsRead : List CPUDir → String → Except String String
  | [], _ => .error "no such file or directory"
  | c :: rest, path =>
    if path = "/sys/devices/system/cpu/" ++ c.dirName ++ "/topology/physical_package_id" then
      .ok c.physical_package_id
    else if path = "/sys/devices/system/cpu/" ++ c.dirName ++ "/topology/core_id" then
      .ok c.core_id
    else if path = "/sys/devices/system/cpu/" ++ c.dirName ++ "/cpufreq/scaling_cur_freq" then
      match c.scaling_cur_freq with
      | some content => .ok content
      | none => .error "permission denied"
    else sysfsRead rest path

/-- The example file system with the listed CPU directories, enumerated in that order. -/
def sysfs (cpus : List CPUDir) : FS where
  glob := fun _ => .ok (cpus.map fun c => "/sys/devices/system/cpu/" ++ c.dirName)
  readFile := sysfsRead cpus
  access := fun path =>
    match sysfsRead cpus path with
    | .ok _ => .ok ()
    | .error e => .error e
  now := 0

/-- Four processors of package 0 with core IDs 0, 0, 1, 1. -/
def fourCPUs : FS :=
  sysfs [⟨"cpu0", "0\n", "0\n", some "2400000\n"⟩, ⟨"cpu1", "0\n", "0\n", some "2400000\n"⟩,
    ⟨"cpu2", "0\n", "1\n", some "2300000\n"⟩, ⟨"cpu3", "0\n", "1\n", some "2300000\n"⟩]

/-- The four processors of `fourCPUs`, the frequency file of processor 2 unreadable. -/
def fourCPUsTwoUnreadable : FS :=
  sysfs [⟨"cpu0", "0\n", "0\n", some "2400000\n"⟩, ⟨"cpu1", "0\n", "0\n", some "2400000\n"⟩,
    ⟨"cpu2", "0\n", "1\n", none⟩, ⟨"cpu3", "0\n", "1\n", some "2300000\n"⟩]

/-- The file system `fourCPUs` with its directories enumerated in another order. -/
def fourCPUsShuffled : FS :=
  { fourCPUs with
    glob := fun _ => .ok ["/sys/devices/system/cpu/cpu2", "/sys/devices/system/cpu/cpu0",
      "/sys/devices/system/cpu/cpu3", "/sys/devices/system/cpu/cpu1"] }

/-- Two processors of one core whose core ID files read `0` and `00`. -/
def paddedCoreID : FS :=
  sysfs [⟨"cpu0", "0\n", "0\n", some "2400000\n"⟩, ⟨"cpu1", "0\n", "00\n", some "2400000\n"⟩]

/-- Processor directories `cpu0` and `cpu2` only. -/
def gapCPUs : FS :=
  sysfs [⟨"cpu0", "0\n", "0\n", some "2400000\n"⟩, ⟨"cpu2", "0\n", "1\n", some "2400000\n"⟩]

/-- Processor directories `cpu0` and `cpu00`: two names for the processor number 0. -/
def twoNamesForZero : FS :=
  sysfs [⟨"cpu0", "0\n", "0\n", some "2400000\n"⟩, ⟨"cpu00", "0\n", "0\n", some "2400000\n"⟩]

/-- No processor directory. -/
def noCPUs : FS := sysfs []

/-- The collector after `Init` on `fourCPUs`. -/
def fourCPUsCollector : CPUFreqCollector := (Init libPlain fourCPUs "" {}).1

/-! ## Vocabulary of the statements about `Read` -/

/-- Whether an entry is one that `Read` is to sample on the file system `fs`: it is no
hyper-thread, its frequency file can be read, and the content without surrounding white
space parses as a decimal `int64`. -/
def sampled (fs : FS) (t : CPUFreqCollectorTopology) : Bool :=
  !t.isHT &&
    match osReadFile fs t.scalingCurFreqFile with
    | .error _ => false
    | .ok line =>
      match ParseInt (TrimSpace line) with
      | .error _ => false
      | .ok _ => true

/-- Whether `p` is a point for the entry `t` on the file system `fs`: it carries the tag
set of `t` and, as its only field `value`, the integer in the frequency file of `t`. -/
def PointOf (fs : FS) (t : CPUFreqCollectorTopology) (p : CCMetric) : Prop :=
  p.tags = t.tagSet ∧
  ∃ (line : String) (cpuFreq : Int), osReadFile fs t.scalingCurFreqFile = .ok line ∧
    ParseInt (TrimSpace line) = .ok cpuFreq ∧ p.fields = [("value", cpuFreq)]

/-! ## Vocabulary of the statements about the topology array -/

/-- An entry of the topology array that the first loop of `Init` did not write. -/
def Unfilled (t : CPUFreqCollectorTopology) : Prop :=
  t.processor = "" ∧ t.physicalPackageID = "" ∧ t.physicalPackageID_int = 0 ∧
  t.coreID = "" ∧ t.coreID_int = 0 ∧ t.scalingCurFreqFile = ""

/-- An entry that the first loop of `Init` wrote at index `i`: the strings parse to the
index and to the stored integers, and the path of the frequency file is not empty. -/
def Filled (i : Nat) (t : CPUFreqCollectorTopology) : Prop :=
  ParseInt t.processor = .ok (i : Int) ∧
  ParseInt t.physicalPackageID = .ok t.physicalPackageID_int ∧
  ParseInt t.coreID = .ok t.coreID_int ∧ t.scalingCurFreqFile ≠ ""

/-- Two entries with the same package ID string and the same core ID string. -/
def SamePair (t t' : CPUFreqCollectorTopology) : Prop :=
  t.physicalPackageID = t'.physicalPackageID ∧ t.coreID = t'.coreID

/-! ## Vocabulary of the statements about the order of enumeration -/

/-- One iteration of the first loop of `Init` where it completes, and the array as it is
where it does not. -/
def writeEntry (fs : FS) (topology : List CPUFreqCollectorTopology) (cpuDir : String) :
    List CPUFreqCollectorTopology :=
  match topologyStep fs cpuDir topology with
  | .ok topology' => topology'
  | .error _ => topology

/-- Whether an iteration of the first loop of `Init` on an array of length `n` completes:
all attributes are read and the processor number is an index of the array. -/
def Completes (fs : FS) (n : Nat) (cpuDir : String) : Prop :=
  ∃ p, probe fs cpuDir = .ok p ∧ 0 ≤ p.processor_int ∧ p.processor_int < n

/-- The fields of an entry that the second, third and fourth loop of `Init` write: the
`isHT` flag, both counts with their renderings, and the tag set. -/
def classification (t : CPUFreqCollectorTopology) :
    Bool × String × Int × String × Int × List (String × String) :=
  (t.isHT, t.numPhysicalPackages, t.numPhysicalPackages_int, t.numNonHT, t.numNonHT_int,
    t.tagSet)

/-- The processor directories with the numbers `0` to `n - 1` in canonical decimal, in
ascending order. -/
def canonicalDirs (n : Nat) : List String :=
  (List.range n).map fun (i : Nat) => "/sys/devices/system/cpu/cpu" ++ Sprint (Int.ofNat i)

/-! # Theorems -/

/-! ## Outcomes of `Init` -/

theorem Init_of_init (L : Lib) (fs : FS) (config : String) (m : CPUFreqCollector)
    (h : m.init = true) : Init L fs config m = (m, .ret none) := by
  simp [Init, h]

theorem topologyStep_stop_ne_nil {fs : FS} {cpuDir : String}
    {topology : List CPUFreqCollectorTopology} {stop : Exit}
    (h : topologyStep fs cpuDir topology = .error stop) : stop ≠ .ret none := by
  unfold topologyStep at h
  split at h
  · cases h; simp
  · split at h
    · cases h
    · cases h; simp

theorem topologyLoop_stop_ne_nil {fs : FS} :
    ∀ (cpuDirs : List String) (topology filled : List CPUFreqCollectorTopology) (stop : Exit),
      topologyLoop fs cpuDirs topology = (filled, some stop) → stop ≠ .ret none
  | [], _, _, _, h => by simp [topologyLoop] at h
  | cpuDir :: rest, topology, filled, stop, h => by
    unfold topologyLoop at h
    split at h
    · rename_i s hs
      cases h
      exact topologyStep_stop_ne_nil hs
    · exact topologyLoop_stop_ne_nil rest _ _ _ h

/-- What a call of `Init` on a collector that is not initialized does when it returns
`nil`: the array is built from the directories found, and the init flag is set. -/
theorem Init_success {L : Lib} {fs : FS} {config : String} {m m' : CPUFreqCollector}
    (hm : m.init = false) (h : Init L fs config m = (m', .ret none)) :
    m'.init = true ∧
    ∃ (cpuDirs : List String) (filled : List CPUFreqCollectorTopology),
      fs.glob (Join2 "/sys/devices/system/cpu" "cpu[0-9]*") = .ok cpuDirs ∧ cpuDirs ≠ [] ∧
      topologyLoop fs cpuDirs (List.replicate cpuDirs.length {}) = (filled, none) ∧
      m'.topology = finishTopology filled := by
  unfold Init at h
  simp only [hm, Bool.false_eq_true, if_false] at h
  split at h
  · simp at h
  · split at h
    · simp at h
    · rename_i cpuDirs hglob
      split at h
      · simp at h
      · rename_i hne
        split at h
        · rename_i topology stop hloop
          simp only [Prod.mk.injEq] at h
          exact absurd h.2 (topologyLoop_stop_ne_nil _ _ _ _ hloop)
        · rename_i topology hloop
          simp only [Prod.mk.injEq] at h
          obtain ⟨h1, -⟩ := h
          subst h1
          exact ⟨rfl, cpuDirs, topology, hglob, hne, hloop, rfl⟩

/-- A call of `Init` on a collector that is not initialized leaves the init flag clear
unless it returns `nil`. -/
theorem Init_failure {L : Lib} {fs : FS} {config : String} {m : CPUFreqCollector}
    (hm : m.init = false) (h : (Init L fs config m).2 ≠ .ret none) :
    (Init L fs config m).1.init = false := by
  unfold Init at h ⊢
  simp only [hm, Bool.false_eq_true, if_false] at h ⊢
  generalize (if config.length > 0 then L.unmarshal config m.config else (m.config, none)) = parsed
    at h ⊢
  obtain ⟨c, e⟩ := parsed
  cases e with
  | some e => simp [setup, hm]
  | none =>
    simp only at h ⊢
    cases hg : fs.glob (Join2 "/sys/devices/system/cpu" "cpu[0-9]*") with
    | error e => simp [setup, hm]
    | ok cpuDirs =>
      simp only [hg] at h ⊢
      by_cases hne : cpuDirs = []
      · simp [hne, setup, hm]
      · simp only [hne, if_false] at h ⊢
        generalize topologyLoop fs cpuDirs (List.replicate cpuDirs.length {}) = r at h ⊢
        obtain ⟨topology, stop⟩ := r
        cases stop with
        | some stop => simp [setup, hm]
        | none => simp at h

/-! ## Sequences of calls -/

theorem Read_of_not_init (L : Lib) (fs : FS) (m : CPUFreqCollector) (h : m.init = false) :
    Read L fs m = [] := by
  simp [Read, h]

theorem emittedUntilInit_of_not_init (L : Lib) :
    ∀ (calls : List Call) (m : CPUFreqCollector), m.init = false →
      emittedUntilInit L calls m = []
  | [], _, _ => rfl
  | c :: rest, m, hm => by
    unfold emittedUntilInit
    split
    · rfl
    · rename_i hc
      cases c with
      | Init fs config =>
        have hfail : (Init L fs config m).2 ≠ .ret none := by
          simpa [Call.initSucceeds] using hc
        simpa [Call.emits, Call.after] using
          emittedUntilInit_of_not_init L rest _ (Init_failure hm hfail)
      | Read fs =>
        simpa [Call.emits, Call.after, Read_of_not_init L fs m hm] using
          emittedUntilInit_of_not_init L rest m hm
      | Close =>
        simpa [Call.emits, Call.after] using
          emittedUntilInit_of_not_init L rest (Close m) rfl

/-- Every initialized collector a program can hold has a topology array that a
successful `Init` built. -/
theorem Reachable.built {L : Lib} {m : CPUFreqCollector} (h : Reachable L m) :
    m.init = true → Built m.topology := by
  induction h with
  | start m hm => intro h; simp [hm] at h
  | afterInit fs config m _ ih =>
    intro h
    by_cases hm : m.init = true
    · rw [Init_of_init L fs config m hm]; exact ih hm
    · have hm' : m.init = false := by simpa using hm
      by_cases hs : (Init L fs config m).2 = .ret none
      · obtain ⟨-, cpuDirs, filled, -, hne, hloop, htop⟩ :=
          Init_success hm' (Prod.ext rfl hs : Init L fs config m = ((Init L fs config m).1, .ret none))
        exact ⟨fs, cpuDirs, filled, hne, hloop, htop⟩
      · rw [Init_failure hm' hs] at h; cases h
  | afterClose m _ _ => intro h; simp [Close] at h

/-- A successful `Init` on a collector a program can hold leaves it initialized, with a
topology array that a successful `Init` built. -/
theorem Init_built {L : Lib} {fs : FS} {config : String} {m m' : CPUFreqCollector}
    (hr : Reachable L m) (h : Init L fs config m = (m', .ret none)) :
    m'.init = true ∧ Built m'.topology := by
  have hr' : Reachable L m' := by
    have := Reachable.afterInit fs config m hr
    rwa [h] at this
  have hi : m'.init = true := by
    by_cases hm : m.init = true
    · rw [Init_of_init L fs config m hm] at h; cases h; exact hm
    · exact (Init_success (by simpa using hm) h).1
  exact ⟨hi, hr'.built hi⟩

/-! ## Lifecycle: `Init` twice, `Init` failing, `Close` -/

/-- C7: on a collector whose init flag is set, `Init` returns `nil` and leaves the whole
collector (topology, config, meta, name, init flag) as it was, for every configuration
argument and every state of the file system. -/
theorem Init_idempotent (L : Lib) (fs : FS) (config : String) (m : CPUFreqCollector)
    (h : m.init = true) : Init L fs config m = (m, .ret none) :=
  Init_of_init L fs config m h

/-- C7, at the collector initialized on four processors, called again with another
configuration argument after every processor directory has disappeared. -/
theorem Init_idempotent_witness :
    fourCPUsCollector.init = true ∧
    Init libPlain noCPUs "[]" fourCPUsCollector = (fourCPUsCollector, .ret none) :=
  ⟨by decide, Init_idempotent libPlain noCPUs "[]" fourCPUsCollector (by decide)⟩

/-- C3: when `Init` on a collector that is not initialized returns an error, the init
flag is clear afterwards, a `Read` emits no point, and no call in any sequence of later
calls emits a point before an `Init` succeeds. -/
theorem Init_error_not_ready (L : Lib) (fs : FS) (config : String) (m m' : CPUFreqCollector)
    (e : InitError) (hm : m.init = false) (h : Init L fs config m = (m', .ret (some e))) :
    m'.init = false ∧ (∀ fs' : FS, Read L fs' m' = []) ∧
    ∀ calls : List Call, emittedUntilInit L calls m' = [] := by
  have hfail : (Init L fs config m).2 ≠ .ret none := by rw [h]; simp
  have hi : m'.init = false := by
    have := Init_failure hm hfail
    rwa [h] at this
  exact ⟨hi, fun fs' => Read_of_not_init L fs' m' hi,
    fun calls => emittedUntilInit_of_not_init L calls m' hi⟩

/-- C3, with no processor directory: `Init` returns the error for an empty enumeration,
and reads on a file system that has processors since then emit nothing. -/
theorem Init_error_not_ready_witness :
    ({} : CPUFreqCollector).init = false ∧
    Init libPlain noCPUs "" {} =
      ((Init libPlain noCPUs "" {}).1, .ret (some (.noFiles "/sys/devices/system/cpu/cpu[0-9]*"))) ∧
    (Init libPlain noCPUs "" {}).1.init = false ∧
    Read libPlain fourCPUs (Init libPlain noCPUs "" {}).1 = [] ∧
    emittedUntilInit libPlain [.Read fourCPUs, .Init gapCPUs "", .Close, .Read fourCPUs]
      (Init libPlain noCPUs "" {}).1 = [] :=
  have h := Init_error_not_ready libPlain noCPUs "" {} (Init libPlain noCPUs "" {}).1
    (.noFiles "/sys/devices/system/cpu/cpu[0-9]*") (by decide) (by decide)
  ⟨by decide, by decide, h.1, h.2.1 fourCPUs, h.2.2 _⟩

/-- C8: a `Read` after `Close` emits no point, as does every call in a sequence of calls
after `Close` before an `Init` succeeds; a `Read` on a collector whose init flag is clear
emits no point, whatever topology it holds and whatever the file system; `Close` clears
the init flag and changes no other field; and `Close` twice is `Close` once. -/
theorem Read_after_Close (L : Lib) (m : CPUFreqCollector) :
    (∀ fs : FS, Read L fs (Close m) = []) ∧
    (∀ calls : List Call, emittedUntilInit L calls (Close m) = []) ∧
    (∀ fs : FS, Read L fs { m with init := false } = []) ∧
    (∀ calls : List Call, emittedUntilInit L calls { m with init := false } = []) ∧
    (Close m).init = false ∧ (Close m).topology = m.topology ∧
    (Close m).config = m.config ∧ (Close m).meta = m.meta ∧ (Close m).name = m.name ∧
    (Close m).parallel = m.parallel ∧
    Close (Close m) = Close m :=
  ⟨fun fs => Read_of_not_init L fs _ rfl,
   fun calls => emittedUntilInit_of_not_init L calls _ rfl,
   fun fs => Read_of_not_init L fs _ rfl,
   fun calls => emittedUntilInit_of_not_init L calls _ rfl,
   rfl, rfl, rfl, rfl, rfl, rfl, rfl⟩

/-! ## Go maps -/

theorem mapLookup_mapInsert {κ ν : Type} [DecidableEq κ] (m : List (κ × ν)) (k k' : κ)
    (v d : ν) : mapLookup (mapInsert m k v) k' d = if k = k' then v else mapLookup m k' d := by
  induction m with
  | nil => simp [mapInsert, mapLookup]
  | cons a rest ih =>
    obtain ⟨a, b⟩ := a
    unfold mapInsert
    by_cases hak : a = k
    · subst hak
      by_cases hk : a = k' <;> simp [mapLookup, hk]
    · simp only [hak, if_false]
      unfold mapLookup
      rw [ih]
      by_cases hk : k = k'
      · subst hk; simp [hak]
      · simp [hk]

theorem mem_keys_mapInsert {κ ν : Type} [DecidableEq κ] (m : List (κ × ν)) (k x : κ) (v : ν) :
    x ∈ (mapInsert m k v).map Prod.fst ↔ x = k ∨ x ∈ m.map Prod.fst := by
  induction m with
  | nil => simp [mapInsert]
  | cons a rest ih =>
    obtain ⟨a, b⟩ := a
    unfold mapInsert
    by_cases hak : a = k
    · subst hak; simp
    · simp only [hak, if_false, List.map_cons, List.mem_cons, ih]
      tauto

theorem nodup_keys_mapInsert {κ ν : Type} [DecidableEq κ] (m : List (κ × ν)) (k : κ) (v : ν)
    (h : (m.map Prod.fst).Nodup) : ((mapInsert m k v).map Prod.fst).Nodup := by
  induction m with
  | nil => simp [mapInsert]
  | cons a rest ih =>
    obtain ⟨a, b⟩ := a
    unfold mapInsert
    by_cases hak : a = k
    · subst hak; simpa using h
    · simp only [hak, if_false, List.map_cons, List.nodup_cons] at h ⊢
      refine ⟨?_, ih h.2⟩
      rw [mem_keys_mapInsert]
      rintro (h1 | h1)
      · exact hak h1
      · exact h.1 h1

/-! ## The classification and counting loops -/

theorem markHT_length :
    ∀ (l : List CPUFreqCollectorTopology) (seen : List (String × Bool)),
      (markHT l seen).length = l.length
  | [], _ => rfl
  | _ :: rest, seen => by simp [markHT, markHT_length rest]

/-- Entry `i` after the second loop: entry `i` before it with `isHT` set when its key is in
the map at the start or is the key of an entry at a lower index. -/
theorem markHT_getElem? :
    ∀ (l : List CPUFreqCollectorTopology) (seen : List (String × Bool)) (i : Nat)
      (t : CPUFreqCollectorTopology), l[i]? = some t →
      (markHT l seen)[i]? = some { t with
        isHT := mapLookup seen (globalID t) false ||
          (l.take i).any (fun t' => decide (globalID t' = globalID t)) }
  | [], _, _, _, h => by simp at h
  | a :: rest, seen, 0, t, h => by
    simp only [List.getElem?_cons_zero, Option.some.injEq] at h
    subst h
    simp [markHT]
  | a :: rest, seen, i + 1, t, h => by
    simp only [List.getElem?_cons_succ] at h
    simp only [markHT, List.getElem?_cons_succ, List.take_succ_cons, List.any_cons]
    rw [markHT_getElem? rest _ i t h, mapLookup_mapInsert]
    by_cases hk : globalID a = globalID t
    · simp [hk]
    · simp [hk]

theorem countLoop_fst :
    ∀ (l : List CPUFreqCollectorTopology) (n : Int) (s : List (Int × Unit)),
      (countLoop l n s).1 = n + (l.countP (fun t => !t.isHT) : Nat)
  | [], n, s => by simp [countLoop]
  | t :: rest, n, s => by
    rw [countLoop, countLoop_fst rest]
    cases h : t.isHT
    · simp [List.countP_cons, h]; ring
    · simp [List.countP_cons, h]

theorem countLoop_snd_nodup :
    ∀ (l : List CPUFreqCollectorTopology) (n : Int) (s : List (Int × Unit)),
      (s.map Prod.fst).Nodup → ((countLoop l n s).2.map Prod.fst).Nodup
  | [], _, _, h => by simpa [countLoop] using h
  | t :: rest, n, s, h => by
    rw [countLoop]
    exact countLoop_snd_nodup rest _ _ (nodup_keys_mapInsert s _ _ h)

theorem countLoop_snd_mem :
    ∀ (l : List CPUFreqCollectorTopology) (n : Int) (s : List (Int × Unit)) (x : Int),
      x ∈ (countLoop l n s).2.map Prod.fst ↔
        x ∈ s.map Prod.fst ∨ x ∈ l.map (fun t => t.physicalPackageID_int)
  | [], _, _, _ => by simp [countLoop]
  | t :: rest, n, s, x => by
    rw [countLoop, countLoop_snd_mem rest, mem_keys_mapInsert]
    simp only [List.map_cons, List.mem_cons]
    tauto

/-- The size of the package ID set after the third loop is the number of distinct
package IDs. -/
theorem countLoop_mapLen (l : List CPUFreqCollectorTopology) :
    mapLen (countLoop l 0 []).2 = (l.map (fun t => t.physicalPackageID_int)).toFinset.card := by
  have hnd := countLoop_snd_nodup l 0 [] (by simp)
  have hlen : mapLen (countLoop l 0 []).2 = ((countLoop l 0 []).2.map Prod.fst).length := by
    simp [mapLen]
  rw [hlen, ← List.toFinset_card_of_nodup hnd]
  congr 1
  ext x
  simp only [List.mem_toFinset]
  rw [countLoop_snd_mem]
  simp

theorem finishTopology_eq (l : List CPUFreqCollectorTopology) :
    finishTopology l =
      (markHT l []).map (annotate
        ((l.map (fun t => t.physicalPackageID_int)).toFinset.card : Nat)
        (((markHT l []).countP (fun t => !t.isHT) : Nat) : Int)) := by
  have hpkg : ∀ (l : List CPUFreqCollectorTopology) (seen : List (String × Bool)),
      (markHT l seen).map (fun t => t.physicalPackageID_int) =
        l.map (fun t => t.physicalPackageID_int) := by
    intro l
    induction l with
    | nil => intro seen; rfl
    | cons a rest ih => intro seen; simp [markHT, ih]
  unfold finishTopology
  simp only [countLoop_mapLen, countLoop_fst, hpkg, zero_add]

theorem finishTopology_length (l : List CPUFreqCollectorTopology) :
    (finishTopology l).length = l.length := by
  simp [finishTopology, markHT_length]

theorem annotate_isHT (a b : Int) (t : CPUFreqCollectorTopology) :
    (annotate a b t).isHT = t.isHT := rfl

theorem annotate_physicalPackageID_int (a b : Int) (t : CPUFreqCollectorTopology) :
    (annotate a b t).physicalPackageID_int = t.physicalPackageID_int := rfl

/-- The counts stored in the entries of a topology array that `Init` built. -/
theorem Built.counts {topology : List CPUFreqCollectorTopology} (h : Built topology) :
    ∀ t ∈ topology,
      t.numPhysicalPackages_int =
        ((topology.map (fun t => t.physicalPackageID_int)).toFinset.card : Nat) ∧
      t.numPhysicalPackages = Sprint t.numPhysicalPackages_int ∧
      t.numNonHT_int = ((topology.countP (fun t => !t.isHT) : Nat) : Int) ∧
      t.numNonHT = Sprint t.numNonHT_int := by
  obtain ⟨fs, cpuDirs, filled, -, -, rfl⟩ := h
  intro t ht
  have hpkg : (finishTopology filled).map (fun t => t.physicalPackageID_int) =
      filled.map (fun t => t.physicalPackageID_int) := by
    have hm : ∀ (l : List CPUFreqCollectorTopology) (seen : List (String × Bool)),
        (markHT l seen).map (fun t => t.physicalPackageID_int) =
          l.map (fun t => t.physicalPackageID_int) := by
      intro l
      induction l with
      | nil => intro seen; rfl
      | cons a rest ih => intro seen; simp [markHT, ih]
    rw [finishTopology_eq, List.map_map]
    simpa [Function.comp_def, annotate_physicalPackageID_int] using hm filled []
  have hcount : (finishTopology filled).countP (fun t => !t.isHT) =
      (markHT filled []).countP (fun t => !t.isHT) := by
    rw [finishTopology_eq, List.countP_map]
    simp [Function.comp_def, annotate_isHT]
  rw [hpkg, hcount]
  rw [finishTopology_eq, List.mem_map] at ht
  obtain ⟨t0, -, rfl⟩ := ht
  exact ⟨rfl, rfl, rfl, rfl⟩

theorem topologyStep_length {fs : FS} {cpuDir : String}
    {topology topology' : List CPUFreqCollectorTopology}
    (h : topologyStep fs cpuDir topology = .ok topology') :
    topology'.length = topology.length := by
  unfold topologyStep at h
  split at h
  · cases h
  · split at h
    · cases h; simp
    · cases h

theorem topologyLoop_length {fs : FS} :
    ∀ (cpuDirs : List String) (topology filled : List CPUFreqCollectorTopology)
      (stop : Option Exit),
      topologyLoop fs cpuDirs topology = (filled, stop) → filled.length = topology.length
  | [], _, _, _, h => by simp [topologyLoop] at h; rw [h.1]
  | cpuDir :: rest, topology, filled, stop, h => by
    unfold topologyLoop at h
    split at h
    · cases h; rfl
    · rename_i topology' hs
      rw [topologyLoop_length rest _ _ _ h, topologyStep_length hs]

/-! ## The counts -/

/-- C5: after a successful `Init`, `numPhysicalPackages_int` of every topology entry is the
number of distinct `physicalPackageID_int` values over all topology entries, and
`numPhysicalPackages` is its decimal rendering. -/
theorem numPhysicalPackages_distinct (L : Lib) (fs : FS) (config : String)
    (m m' : CPUFreqCollector) (hr : Reachable L m) (h : Init L fs config m = (m', .ret none)) :
    ∀ t ∈ m'.topology,
      t.numPhysicalPackages_int =
        ((m'.topology.map (fun t => t.physicalPackageID_int)).toFinset.card : Nat) ∧
      t.numPhysicalPackages = Sprint t.numPhysicalPackages_int := by
  intro t ht
  obtain ⟨h1, h2, -, -⟩ := (Init_built hr h).2.counts t ht
  exact ⟨h1, h2⟩

/-- C6: after a successful `Init`, `numNonHT_int` of every topology entry plus the number
of entries with `isHT` set is the number of topology entries, which is the number of
processor directories found when this call built the array. -/
theorem numNonHT_add_siblings (L : Lib) (fs : FS) (config : String)
    (m m' : CPUFreqCollector) (hr : Reachable L m) (h : Init L fs config m = (m', .ret none)) :
    (∀ t ∈ m'.topology,
      t.numNonHT_int + ((m'.topology.countP (fun t => t.isHT) : Nat) : Int) =
        (m'.topology.length : Nat)) ∧
    (m.init = false → ∀ cpuDirs : List String,
      fs.glob (Join2 "/sys/devices/system/cpu" "cpu[0-9]*") = .ok cpuDirs →
      m'.topology.length = cpuDirs.length) := by
  constructor
  · intro t ht
    obtain ⟨-, -, h3, -⟩ := (Init_built hr h).2.counts t ht
    have hsplit := List.length_eq_countP_add_countP (p := fun t : CPUFreqCollectorTopology => t.isHT)
      m'.topology
    have hneg : (fun t : CPUFreqCollectorTopology => decide (¬ t.isHT = true)) =
        (fun t => !t.isHT) := by
      funext t; cases t.isHT <;> rfl
    rw [hneg] at hsplit
    rw [h3]
    omega
  · intro hm cpuDirs hglob
    obtain ⟨-, cpuDirs', filled, hglob', -, hloop, htop⟩ := Init_success hm h
    rw [hglob] at hglob'
    cases hglob'
    rw [htop, finishTopology_length, topologyLoop_length _ _ _ _ hloop, List.length_replicate]

/-- C5, on four processors of one package: every entry stores the count 1. -/
theorem numPhysicalPackages_distinct_witness :
    Reachable libPlain {} ∧
    Init libPlain fourCPUs "" {} = (fourCPUsCollector, .ret none) ∧
    ∀ t ∈ fourCPUsCollector.topology,
      t.numPhysicalPackages_int =
        ((fourCPUsCollector.topology.map (fun t => t.physicalPackageID_int)).toFinset.card : Nat) ∧
      t.numPhysicalPackages = Sprint t.numPhysicalPackages_int :=
  ⟨.start _ rfl, by decide,
    numPhysicalPackages_distinct libPlain fourCPUs "" {} fourCPUsCollector (.start _ rfl)
      (by decide)⟩

/-- C6, on four processors of two cores: 2 + 2 = 4. -/
theorem numNonHT_add_siblings_witness :
    Reachable libPlain {} ∧
    Init libPlain fourCPUs "" {} = (fourCPUsCollector, .ret none) ∧
    (∀ t ∈ fourCPUsCollector.topology,
      t.numNonHT_int + ((fourCPUsCollector.topology.countP (fun t => t.isHT) : Nat) : Int) =
        (fourCPUsCollector.topology.length : Nat)) ∧
    fourCPUsCollector.topology.length = 4 :=
  have h := numNonHT_add_siblings libPlain fourCPUs "" {} fourCPUsCollector (.start _ rfl)
    (by decide)
  ⟨.start _ rfl, by decide, h.1, h.2 rfl _ rfl⟩

/-! ## `Read` -/

theorem readEntry_of_sampled {L : Lib} {fs : FS} {m : CPUFreqCollector}
    {t : CPUFreqCollectorTopology} (hnew : ∀ p, L.newError p = none)
    (h : sampled fs t = true) : ∃ p, readEntry L fs m t = some p ∧ PointOf fs t p := by
  unfold sampled at h
  unfold readEntry PointOf
  cases hHT : t.isHT with
  | true => simp [hHT] at h
  | false =>
    cases hr : osReadFile fs t.scalingCurFreqFile with
    | error e => simp [hr] at h
    | ok line =>
      cases hp : ParseInt (TrimSpace line) with
      | error e => simp [hr, hp] at h
      | ok cpuFreq => simp [lpNew, hnew, hp]

theorem readEntry_of_not_sampled {L : Lib} {fs : FS} {m : CPUFreqCollector}
    {t : CPUFreqCollectorTopology} (h : sampled fs t = false) : readEntry L fs m t = none := by
  unfold sampled at h
  unfold readEntry
  cases hHT : t.isHT with
  | true => simp
  | false =>
    cases hr : osReadFile fs t.scalingCurFreqFile with
    | error e => simp
    | ok line =>
      cases hp : ParseInt (TrimSpace line) with
      | error e => simp [hp]
      | ok cpuFreq => simp [hHT, hr, hp] at h

theorem filterMap_readEntry (L : Lib) (fs : FS) (m : CPUFreqCollector)
    (hnew : ∀ p, L.newError p = none) :
    ∀ l : List CPUFreqCollectorTopology,
      List.Forall₂ (PointOf fs) (l.filter (sampled fs)) (l.filterMap (readEntry L fs m))
  | [] => by simp
  | t :: rest => by
    cases hs : sampled fs t with
    | true =>
      obtain ⟨p, hp, hpt⟩ := readEntry_of_sampled (m := m) hnew hs
      simp only [List.filter_cons, hs, if_true, List.filterMap_cons, hp]
      exact List.Forall₂.cons hpt (filterMap_readEntry L fs m hnew rest)
    | false =>
      simp only [List.filter_cons, hs, List.filterMap_cons, readEntry_of_not_sampled hs]
      exact filterMap_readEntry L fs m hnew rest

theorem countP_succ_of_differ_at {α : Type} (p q : α → Bool) :
    ∀ (l : List α) (k : Nat) (t : α), l[k]? = some t → p t = true → q t = false →
      (∀ (j : Nat) (t' : α), j ≠ k → l[j]? = some t' → q t' = p t') →
      l.countP q + 1 = l.countP p
  | [], _, _, h, _, _, _ => by simp at h
  | a :: rest, 0, t, h, hp, hq, hrest => by
    simp only [List.getElem?_cons_zero, Option.some.injEq] at h
    subst h
    have hcongr : rest.countP q = rest.countP p := by
      apply List.countP_congr
      intro x hx
      obtain ⟨j, hj⟩ := List.getElem?_of_mem hx
      have := hrest (j + 1) x (by omega) (by simpa using hj)
      rw [this]
    simp [List.countP_cons, hp, hq, hcongr]
  | a :: rest, k + 1, t, h, hp, hq, hrest => by
    simp only [List.getElem?_cons_succ] at h
    have ha : q a = p a := hrest 0 a (by omega) (by simp)
    have ih := countP_succ_of_differ_at p q rest k t h hp hq
      (fun j t' hj ht' => hrest (j + 1) t' (by omega) (by simpa using ht'))
    simp only [List.countP_cons, ha]
    omega

/-- C4: on an initialized collector, when every point can be constructed, `Read` emits one
point for each entry that is no hyper-thread and whose frequency file is readable and
parses, in the order of the array, and no other point. When the frequency file of one
entry that is no hyper-thread is unreadable and those of all others are readable and parse,
the number of points is one less than the number of entries that are no hyper-thread. -/
theorem Read_one_point_per_sampled (L : Lib) (fs : FS) (m : CPUFreqCollector)
    (hinit : m.init = true) (hnew : ∀ p, L.newError p = none) :
    List.Forall₂ (PointOf fs) (m.topology.filter (sampled fs)) (Read L fs m) ∧
    (Read L fs m).length = m.topology.countP (sampled fs) ∧
    ∀ (k : Nat) (t : CPUFreqCollectorTopology), m.topology[k]? = some t → t.isHT = false →
      (∃ e, osReadFile fs t.scalingCurFreqFile = .error e) →
      (∀ (j : Nat) (t' : CPUFreqCollectorTopology), j ≠ k → m.topology[j]? = some t' →
        t'.isHT = false → sampled fs t' = true) →
      (Read L fs m).length + 1 = m.topology.countP (fun t => !t.isHT) := by
  have hread : Read L fs m = m.topology.filterMap (readEntry L fs m) := by
    simp [Read, hinit]
  have hall := filterMap_readEntry L fs m hnew m.topology
  have hlen : (Read L fs m).length = m.topology.countP (sampled fs) := by
    rw [hread, ← hall.length_eq, List.countP_eq_length_filter]
  refine ⟨hread ▸ hall, hlen, ?_⟩
  intro k t hk hHT hunreadable hothers
  rw [hlen]
  obtain ⟨e, he⟩ := hunreadable
  apply countP_succ_of_differ_at (fun t => !t.isHT) (sampled fs) m.topology k t hk
  · simp [hHT]
  · simp [sampled, he]
  · intro j t' hj ht'
    cases hHT' : t'.isHT with
    | true => simp [sampled, hHT']
    | false => simp [hothers j t' hj ht' hHT']

/-- C4, on the collector initialized on four processors, read when the frequency file of
processor 2 is unreadable: of the two entries that are no hyper-thread, one point. -/
theorem Read_one_point_per_sampled_witness :
    fourCPUsCollector.init = true ∧ (∀ p, libPlain.newError p = none) ∧
    (Read libPlain fourCPUsTwoUnreadable fourCPUsCollector).length =
      fourCPUsCollector.topology.countP (sampled fourCPUsTwoUnreadable) ∧
    (Read libPlain fourCPUsTwoUnreadable fourCPUsCollector).length + 1 =
      fourCPUsCollector.topology.countP (fun t => !t.isHT) :=
  have h := Read_one_point_per_sampled libPlain fourCPUsTwoUnreadable fourCPUsCollector
    (by decide) (fun _ => rfl)
  have hlen : fourCPUsCollector.topology.length = 4 := by decide
  ⟨by decide, fun _ => rfl, h.2.1,
    h.2.2 2 (fourCPUsCollector.topology.getD 2 {}) (by decide) (by decide)
      ⟨"permission denied", rfl⟩
      (fun j t' hj h1 h2 => by
        match j, hj with
        | 0, _ => cases h1; decide
        | 1, _ => cases h1; exact absurd h2 (by decide)
        | 2, hj => exact absurd rfl hj
        | 3, _ => cases h1; exact absurd h2 (by decide)
        | j + 4, _ =>
          rw [List.getElem?_eq_none (by omega)] at h1
          cases h1)⟩

/-! ## Strings that parse -/

theorem parseDigits_ok_digit :
    ∀ (cs : List Char) (n v : Nat), parseDigits cs n = .ok v →
      ∀ c ∈ cs, 48 ≤ c.toNat ∧ c.toNat ≤ 57
  | [], _, _, _, c, hc => by simp at hc
  | d :: cs, n, v, h, c, hc => by
    unfold parseDigits at h
    by_cases hd : 48 ≤ d.toNat ∧ d.toNat ≤ 57
    · simp only [digitValue, hd, and_self, if_true] at h
      split at h
      · rcases List.mem_cons.1 hc with rfl | hc
        · exact hd
        · exact parseDigits_ok_digit cs _ v h c hc
      · cases h
    · simp [digitValue, hd] at h

theorem parseSigned_ok_digit {neg : Bool} {cs : List Char} {v : Int}
    (h : parseSigned neg cs = .ok v) : ∀ c ∈ cs, 48 ≤ c.toNat ∧ c.toNat ≤ 57 := by
  unfold parseSigned at h
  split at h
  · cases h
  · rename_i un hu
    unfold ParseUint at hu
    split at hu
    · cases hu
    · exact parseDigits_ok_digit _ _ _ hu

/-- A string that `ParseInt` accepts is not empty and holds no colon. -/
theorem ParseInt_ok {s : String} {v : Int} (h : ParseInt s = .ok v) :
    s ≠ "" ∧ ':' ∉ s.data := by
  unfold ParseInt at h
  split at h
  · cases h
  · rename_i c cs hs
    refine ⟨fun h0 => by simp [h0] at hs, ?_⟩
    rw [hs]
    intro hmem
    have h58 : (':' : Char).toNat = 58 := by decide
    split at h
    · rename_i hc
      rcases List.mem_cons.1 hmem with h1 | h1
      · rw [← h1] at hc; exact absurd hc (by decide)
      · have := parseSigned_ok_digit h _ h1; omega
    · split at h
      · rename_i hc
        rcases List.mem_cons.1 hmem with h1 | h1
        · rw [← h1] at hc; exact absurd hc (by decide)
        · have := parseSigned_ok_digit h _ h1; omega
      · have := parseSigned_ok_digit h _ hmem; omega

theorem append_colon_inj :
    ∀ (a a' b b' : List Char), ':' ∉ a → ':' ∉ a' → a ++ ':' :: b = a' ++ ':' :: b' →
      a = a' ∧ b = b'
  | [], [], _, _, _, _, h => by simpa using h
  | [], c :: a', _, _, _, h', h => by
    simp only [List.nil_append, List.cons_append, List.cons.injEq] at h
    exact absurd (h.1 ▸ List.mem_cons_self _ _) h'
  | c :: a, [], _, _, h', _, h => by
    simp only [List.nil_append, List.cons_append, List.cons.injEq] at h
    exact absurd (h.1 ▸ List.mem_cons_self _ _) h'
  | c :: a, c' :: a', b, b', h1, h2, h => by
    simp only [List.cons_append, List.cons.injEq] at h
    have := append_colon_inj a a' b b' (fun hm => h1 (List.mem_cons_of_mem _ hm))
      (fun hm => h2 (List.mem_cons_of_mem _ hm)) h.2
    exact ⟨by rw [h.1, this.1], this.2⟩

/-- Entries whose package ID strings hold no colon have the same key `globalID` exactly
when they have the same package ID string and the same core ID string. -/
theorem globalID_eq_iff {t t' : CPUFreqCollectorTopology}
    (h : ':' ∉ t.physicalPackageID.data) (h' : ':' ∉ t'.physicalPackageID.data) :
    globalID t = globalID t' ↔ SamePair t t' := by
  constructor
  · intro hg
    have hd := congrArg String.data hg
    simp only [globalID, String.data_append] at hd
    rw [List.append_assoc, List.append_assoc] at hd
    obtain ⟨h1, h2⟩ := append_colon_inj _ _ _ _ h h' hd
    exact ⟨String.ext h1, String.ext h2⟩
  · rintro ⟨h1, h2⟩
    simp [globalID, h1, h2]

theorem no_colon_of_entry {i : Nat} {t : CPUFreqCollectorTopology}
    (h : Unfilled t ∨ Filled i t) : ':' ∉ t.physicalPackageID.data := by
  rcases h with h | h
  · rw [h.2.1]; simp
  · exact (ParseInt_ok h.2.1).2

/-! ## The first loop -/

theorem probe_ok {fs : FS} {cpuDir : String} {p : Probe} (h : probe fs cpuDir = .ok p) :
    ParseInt p.processor = .ok p.processor_int ∧
    ParseInt p.physicalPackageID = .ok p.physicalPackageID_int ∧
    ParseInt p.coreID = .ok p.coreID_int ∧ p.scalingCurFreqFile ≠ "" := by
  unfold probe at h
  simp only at h
  split at h
  · cases h
  · rename_i n hn
    split at h
    · cases h
    · split at h
      · cases h
      · rename_i pk hpk
        split at h
        · cases h
        · split at h
          · cases h
          · rename_i cr hcr
            split at h
            · cases h
            · rename_i hacc
              cases h
              refine ⟨hn, hpk, hcr, ?_⟩
              intro h0
              simp only at h0
              simp [unixAccess, h0] at hacc

theorem topologyStep_entries {fs : FS} {cpuDir : String}
    {topology topology' : List CPUFreqCollectorTopology}
    (hinv : ∀ (i : Nat) (t : CPUFreqCollectorTopology), topology[i]? = some t →
      Unfilled t ∨ Filled i t)
    (h : topologyStep fs cpuDir topology = .ok topology') :
    ∀ (i : Nat) (t : CPUFreqCollectorTopology), topology'[i]? = some t →
      Unfilled t ∨ Filled i t := by
  unfold topologyStep at h
  split at h
  · cases h
  · rename_i p hp
    split at h
    · rename_i hrange
      cases h
      intro i t ht
      rw [List.getElem?_set] at ht
      split at ht
      · rename_i hi
        split at ht
        · cases ht
          obtain ⟨h1, h2, h3, h4⟩ := probe_ok hp
          right
          refine ⟨?_, h2, h3, h4⟩
          have : ((i : Nat) : Int) = p.processor_int := by omega
          simpa [store, this] using h1
        · cases ht
      · exact hinv i t ht
    · cases h

theorem topologyLoop_entries {fs : FS} :
    ∀ (cpuDirs : List String) (topology filled : List CPUFreqCollectorTopology)
      (stop : Option Exit),
      (∀ (i : Nat) (t : CPUFreqCollectorTopology), topology[i]? = some t →
        Unfilled t ∨ Filled i t) →
      topologyLoop fs cpuDirs topology = (filled, stop) →
      ∀ (i : Nat) (t : CPUFreqCollectorTopology), filled[i]? = some t →
        Unfilled t ∨ Filled i t
  | [], _, _, _, hinv, h => by
    simp only [topologyLoop, Prod.mk.injEq] at h
    rw [← h.1]; exact hinv
  | cpuDir :: rest, topology, filled, stop, hinv, h => by
    unfold topologyLoop at h
    split at h
    · cases h; exact hinv
    · rename_i topology' hs
      exact topologyLoop_entries rest _ _ _ (topologyStep_entries hinv hs) h

theorem replicate_entries (n : Nat) :
    ∀ (i : Nat) (t : CPUFreqCollectorTopology),
      (List.replicate n ({} : CPUFreqCollectorTopology))[i]? = some t →
      Unfilled t ∨ Filled i t := by
  intro i t ht
  have hmem : t ∈ List.replicate n ({} : CPUFreqCollectorTopology) :=
    List.mem_iff_getElem?.2 ⟨i, ht⟩
  rw [List.eq_of_mem_replicate hmem]
  exact Or.inl ⟨rfl, rfl, rfl, rfl, rfl, rfl⟩

theorem mem_take_iff_getElem? {α : Type} {l : List α} {n : Nat} {a : α} :
    a ∈ l.take n ↔ ∃ j, j < n ∧ l[j]? = some a := by
  rw [List.mem_iff_getElem?]
  constructor
  · rintro ⟨j, hj⟩
    rw [List.getElem?_take] at hj
    split at hj
    · exact ⟨j, by assumption, hj⟩
    · cases hj
  · rintro ⟨j, hjn, hj⟩
    exact ⟨j, by rw [List.getElem?_take, if_pos hjn]; exact hj⟩

/-- Entry `i` of the array that `finishTopology` returns, from entry `i` of the array the
first loop filled. -/
theorem finishTopology_getElem? {l : List CPUFreqCollectorTopology} {i : Nat}
    {t : CPUFreqCollectorTopology} (h : (finishTopology l)[i]? = some t) :
    ∃ t0, l[i]? = some t0 ∧
      t.processor = t0.processor ∧ t.physicalPackageID = t0.physicalPackageID ∧
      t.physicalPackageID_int = t0.physicalPackageID_int ∧ t.coreID = t0.coreID ∧
      t.coreID_int = t0.coreID_int ∧ t.scalingCurFreqFile = t0.scalingCurFreqFile ∧
      t.tagSet = [("type", "hwthread"), ("type-id", t0.processor),
        ("package_id", t0.physicalPackageID)] ∧
      (t.isHT = true ↔ ∃ j t', j < i ∧ l[j]? = some t' ∧ globalID t' = globalID t0) := by
  have hi : i < l.length := by
    have := (List.getElem?_eq_some.1 h).1
    rwa [finishTopology_length] at this
  have h0 : l[i]? = some l[i] := List.getElem?_eq_getElem hi
  refine ⟨l[i], h0, ?_⟩
  rw [finishTopology_eq, List.getElem?_map, markHT_getElem? l [] i _ h0] at h
  simp only [Option.map_some', Option.some.injEq] at h
  subst h
  refine ⟨rfl, rfl, rfl, rfl, rfl, rfl, rfl, ?_⟩
  simp only [annotate, mapLookup, Bool.false_or, List.any_eq_true, decide_eq_true_eq]
  constructor
  · rintro ⟨t', hmem, hg⟩
    obtain ⟨j, hj, hjt⟩ := mem_take_iff_getElem?.1 hmem
    exact ⟨j, t', hj, hjt, hg⟩
  · rintro ⟨j, t', hj, hjt, hg⟩
    exact ⟨t', mem_take_iff_getElem?.2 ⟨j, hj, hjt⟩, hg⟩

/-- The entries of a topology array that `Init` built: each is unwritten or written at
its index, carries the three tags, and is a hyper-thread exactly when an entry at a lower
index has the same package ID and core ID strings. -/
theorem Built.entries {topology : List CPUFreqCollectorTopology} (h : Built topology)
    {i : Nat} {t : CPUFreqCollectorTopology} (ht : topology[i]? = some t) :
    (Unfilled t ∨ Filled i t) ∧
    t.tagSet = [("type", "hwthread"), ("type-id", t.processor),
      ("package_id", t.physicalPackageID)] ∧
    (t.isHT = true ↔ ∃ j t', j < i ∧ topology[j]? = some t' ∧ SamePair t' t) := by
  obtain ⟨fs, cpuDirs, filled, -, hloop, rfl⟩ := h
  have hfilled := topologyLoop_entries cpuDirs _ filled none (replicate_entries _) hloop
  have transfer : ∀ {k : Nat} {u u0 : CPUFreqCollectorTopology},
      u.processor = u0.processor → u.physicalPackageID = u0.physicalPackageID →
      u.physicalPackageID_int = u0.physicalPackageID_int → u.coreID = u0.coreID →
      u.coreID_int = u0.coreID_int → u.scalingCurFreqFile = u0.scalingCurFreqFile →
      (Unfilled u0 ∨ Filled k u0) → (Unfilled u ∨ Filled k u) := by
    intro k u u0 e1 e2 e3 e4 e5 e6 hu
    simpa only [Unfilled, Filled, e1, e2, e3, e4, e5, e6] using hu
  obtain ⟨t0, h0, e1, e2, e3, e4, e5, e6, htag, hHT⟩ := finishTopology_getElem? ht
  have hinv0 := hfilled i t0 h0
  refine ⟨transfer e1 e2 e3 e4 e5 e6 hinv0, by rw [htag, e1, e2], ?_⟩
  rw [hHT]
  constructor
  · rintro ⟨j, t', hj, hjt, hg⟩
    have hjlen : j < (finishTopology filled).length := by
      rw [finishTopology_length]; exact (List.getElem?_eq_some.1 hjt).1
    obtain ⟨u0, hu0, f1, f2, f3, f4, f5, f6, -, -⟩ :=
      finishTopology_getElem? (List.getElem?_eq_getElem hjlen)
    rw [hjt] at hu0
    cases hu0
    refine ⟨j, _, hj, List.getElem?_eq_getElem hjlen, ?_⟩
    have := (globalID_eq_iff (no_colon_of_entry (hfilled j _ hjt))
      (no_colon_of_entry hinv0)).1 hg
    exact ⟨by rw [f2, e2]; exact this.1, by rw [f4, e4]; exact this.2⟩
  · rintro ⟨j, u, hj, hju, hsame⟩
    obtain ⟨u0, hu0, f1, f2, f3, f4, f5, f6, -, -⟩ := finishTopology_getElem? hju
    refine ⟨j, u0, hj, hu0, ?_⟩
    apply (globalID_eq_iff (no_colon_of_entry (hfilled j _ hu0)) (no_colon_of_entry hinv0)).2
    exact ⟨by rw [← f2, ← e2]; exact hsame.1, by rw [← f4, ← e4]; exact hsame.2⟩

/-! ## Hyper-thread classification -/

theorem samePair_ints {i j : Nat} {t t' : CPUFreqCollectorTopology}
    (h : Unfilled t ∨ Filled i t) (h' : Unfilled t' ∨ Filled j t') (hs : SamePair t' t) :
    t'.physicalPackageID_int = t.physicalPackageID_int ∧ t'.coreID_int = t.coreID_int := by
  obtain ⟨hp, hc⟩ := hs
  rcases h with h | h <;> rcases h' with h' | h'
  · exact ⟨by rw [h.2.2.1, h'.2.2.1], by rw [h.2.2.2.2.1, h'.2.2.2.2.1]⟩
  · exact absurd (hp.trans h.2.1) (ParseInt_ok h'.2.1).1
  · exact absurd (hp.symm.trans h'.2.1) (ParseInt_ok h.2.1).1
  · have h1 := h'.2.1
    have h2 := h'.2.2.1
    rw [hp, h.2.1] at h1
    rw [hc, h.2.2.1] at h2
    exact ⟨(Except.ok.inj h1).symm, (Except.ok.inj h2).symm⟩

/-- C1 (amended): after a successful `Init`, among the topology entries with the same
package ID string and core ID string exactly one has `isHT = false`, and it is the one
with the lowest index; among the entries with the same `physicalPackageID_int` and
`coreID_int` the one with the lowest index has `isHT = false`. Four processors of
package 0 with core IDs 0, 0, 1, 1 give `isHT` false, true, false, true. -/
theorem isHT_lowest_of_pair (L : Lib) (fs : FS) (config : String) (m m' : CPUFreqCollector)
    (hr : Reachable L m) (h : Init L fs config m = (m', .ret none)) :
    (∀ (i : Nat) (t : CPUFreqCollectorTopology), m'.topology[i]? = some t →
      ∃ (j : Nat) (t0 : CPUFreqCollectorTopology),
        m'.topology[j]? = some t0 ∧ SamePair t0 t ∧ t0.isHT = false ∧
        ∀ (k : Nat) (t' : CPUFreqCollectorTopology), m'.topology[k]? = some t' →
          SamePair t' t → j ≤ k ∧ (t'.isHT = false → k = j)) ∧
    (∀ (i : Nat) (t : CPUFreqCollectorTopology), m'.topology[i]? = some t →
      (∀ (j : Nat) (t' : CPUFreqCollectorTopology), j < i → m'.topology[j]? = some t' →
        ¬ (t'.physicalPackageID_int = t.physicalPackageID_int ∧
          t'.coreID_int = t.coreID_int)) →
      t.isHT = false) ∧
    (Init libPlain fourCPUs "" {}).1.topology.map (fun t => t.isHT) =
      [false, true, false, true] := by
  have hb := (Init_built hr h).2
  refine ⟨?_, ?_, by decide⟩
  · intro i t ht
    classical
    have hex : ∃ j, ∃ t0, m'.topology[j]? = some t0 ∧ SamePair t0 t :=
      ⟨i, t, ht, rfl, rfl⟩
    obtain ⟨t0, hj, hsame⟩ := Nat.find_spec hex
    refine ⟨Nat.find hex, t0, hj, hsame, ?_, ?_⟩
    · cases hHT : t0.isHT with
      | false => rfl
      | true =>
        obtain ⟨j', u, hlt, hu, hsu⟩ := (hb.entries hj).2.2.1 hHT
        exact absurd ⟨u, hu, hsu.1.trans hsame.1, hsu.2.trans hsame.2⟩ (Nat.find_min hex hlt)
    · intro k t' hk hsk
      have hle : Nat.find hex ≤ k := Nat.find_min' hex ⟨t', hk, hsk⟩
      refine ⟨hle, fun hHT => ?_⟩
      by_contra hne
      have hlt : Nat.find hex < k := by omega
      have : t'.isHT = true := (hb.entries hk).2.2.2
        ⟨Nat.find hex, t0, hlt, hj, hsame.1.trans hsk.1.symm, hsame.2.trans hsk.2.symm⟩
      rw [hHT] at this
      cases this
  · intro i t ht hfirst
    cases hHT : t.isHT with
    | false => rfl
    | true =>
      obtain ⟨j, u, hlt, hu, hsu⟩ := (hb.entries ht).2.2.1 hHT
      exact absurd (samePair_ints (hb.entries ht).1 (hb.entries hu).1 hsu) (hfirst j u hlt hu)

/-- C1 (amended), on four processors of package 0 with core IDs 0, 0, 1, 1: the array is
built, and entry 2 is the first entry of its pair. -/
theorem isHT_lowest_of_pair_witness :
    Reachable libPlain {} ∧
    Init libPlain fourCPUs "" {} = (fourCPUsCollector, .ret none) ∧
    fourCPUsCollector.topology.map (fun t => t.isHT) = [false, true, false, true] ∧
    ∃ (j : Nat) (t0 : CPUFreqCollectorTopology),
      fourCPUsCollector.topology[j]? = some t0 ∧
      SamePair t0 (fourCPUsCollector.topology.getD 3 {}) ∧ t0.isHT = false ∧
      ∀ (k : Nat) (t' : CPUFreqCollectorTopology), fourCPUsCollector.topology[k]? = some t' →
        SamePair t' (fourCPUsCollector.topology.getD 3 {}) →
        j ≤ k ∧ (t'.isHT = false → k = j) :=
  have h := isHT_lowest_of_pair libPlain fourCPUs "" {} fourCPUsCollector (.start _ rfl)
    (by decide)
  ⟨.start _ rfl, by decide, h.2.2, h.1 3 (fourCPUsCollector.topology.getD 3 {}) (by decide)⟩

/-- C1 as stated fails: with core ID files reading `0` and `00`, `Init` succeeds and both
entries have the integer pair (0, 0) and `isHT = false`, so no single entry of that pair
is the one with `isHT = false`. -/
theorem isHT_integer_pair_counterexample :
    (Init libPlain paddedCoreID "" {}).2 = .ret none ∧
    (Init libPlain paddedCoreID "" {}).1.topology.map
      (fun t => (t.physicalPackageID_int, t.coreID_int, t.isHT)) =
      [(0, 0, false), (0, 0, false)] ∧
    ¬ ∃! i : Nat, ∃ t : CPUFreqCollectorTopology,
      (Init libPlain paddedCoreID "" {}).1.topology[i]? = some t ∧
      t.physicalPackageID_int = 0 ∧ t.coreID_int = 0 ∧ t.isHT = false := by
  refine ⟨by decide, by decide, ?_⟩
  rintro ⟨i, -, huniq⟩
  have h0 := huniq 0 ⟨(Init libPlain paddedCoreID "" {}).1.topology.getD 0 {},
    by decide, by decide, by decide, by decide⟩
  have h1 := huniq 1 ⟨(Init libPlain paddedCoreID "" {}).1.topology.getD 1 {},
    by decide, by decide, by decide, by decide⟩
  omega

/-! ## Processor numbers with a gap -/

/-- C2 fails on the code: with the processor directories `cpu0` and `cpu2`, all attribute
files readable, `Init` does not return an error but stops in a panic, index 2 being out
of range for the array of length 2; and with two directories that both carry the number
0, `Init` returns `nil` with entry 1 of the array never written. -/
theorem Init_gap_index_out_of_range :
    (Init libPlain gapCPUs "" {}).2 = .indexOutOfRange 2 2 ∧
    (Init libPlain twoNamesForZero "" {}).2 = .ret none ∧
    ((Init libPlain twoNamesForZero "" {}).1.topology.map
      (fun t => (t.processor, t.scalingCurFreqFile))) =
      [("00", "/sys/devices/system/cpu/cpu00/cpufreq/scaling_cur_freq"), ("", "")] := by
  decide

/-! ## The points `Read` emits -/

theorem readEntry_some {L : Lib} {fs : FS} {m : CPUFreqCollector}
    {t : CPUFreqCollectorTopology} {p : CCMetric} (h : readEntry L fs m t = some p) :
    t.isHT = false ∧ p.name = "cpufreq" ∧ p.tags = t.tagSet ∧ p.meta = m.meta ∧
    p.tm = fs.now ∧
    ∃ (line : String) (cpuFreq : Int), osReadFile fs t.scalingCurFreqFile = .ok line ∧
      ParseInt (TrimSpace line) = .ok cpuFreq ∧ p.fields = [("value", cpuFreq)] := by
  unfold readEntry at h
  split at h
  · cases h
  · rename_i hHT
    split at h
    · cases h
    · rename_i line hline
      split at h
      · cases h
      · rename_i cpuFreq hfreq
        split at h
        · cases h
        · rename_i y hy
          cases h
          unfold lpNew at hy
          split at hy
          · cases hy
          · cases hy
            exact ⟨by simpa using hHT, rfl, rfl, rfl, rfl, line, cpuFreq, hline, hfreq, rfl⟩

/-- C9: after a successful `Init`, every point that a `Read` emits is named `cpufreq` and
is derived from one topology entry: its tags are the tag set of that entry, with `type-id`
the processor number of the entry, which parses to the index of the entry in the array,
`package_id` the package ID of the entry and `type` the text `hwthread`; its field `value`
is the integer parsed from the frequency file of that entry. -/
theorem Read_point_of_entry (L : Lib) (fs : FS) (config : String) (m m' : CPUFreqCollector)
    (hr : Reachable L m) (h : Init L fs config m = (m', .ret none)) (fs' : FS) :
    ∀ p ∈ Read L fs' m',
      p.name = "cpufreq" ∧
      ∃ (i : Nat) (t : CPUFreqCollectorTopology), m'.topology[i]? = some t ∧
        p.tags = t.tagSet ∧
        p.tags = [("type", "hwthread"), ("type-id", t.processor),
          ("package_id", t.physicalPackageID)] ∧
        mapLookup p.tags "type-id" "" = t.processor ∧
        ParseInt t.processor = .ok (i : Int) ∧
        mapLookup p.tags "package_id" "" = t.physicalPackageID ∧
        mapLookup p.tags "type" "" = "hwthread" ∧
        ∃ (line : String) (cpuFreq : Int),
          osReadFile fs' t.scalingCurFreqFile = .ok line ∧
          ParseInt (TrimSpace line) = .ok cpuFreq ∧ p.fields = [("value", cpuFreq)] := by
  intro p hp
  have hb := (Init_built hr h).2
  have hmem : p ∈ m'.topology.filterMap (readEntry L fs' m') := by
    unfold Read at hp
    split at hp
    · cases hp
    · exact hp
  obtain ⟨t, htmem, hread⟩ := List.mem_filterMap.1 hmem
  obtain ⟨i, hi⟩ := List.mem_iff_getElem?.1 htmem
  obtain ⟨-, hname, htags, -, -, line, cpuFreq, hline, hfreq, hfields⟩ := readEntry_some hread
  obtain ⟨hentry, htagSet, -⟩ := hb.entries hi
  have hpath : t.scalingCurFreqFile ≠ "" := by
    intro h0
    simp [osReadFile, h0] at hline
  have hfilled : Filled i t := by
    rcases hentry with hu | hf
    · exact absurd hu.2.2.2.2.2 hpath
    · exact hf
  have hlist : p.tags = [("type", "hwthread"), ("type-id", t.processor),
      ("package_id", t.physicalPackageID)] := by rw [htags, htagSet]
  refine ⟨hname, i, t, hi, htags, hlist, ?_, hfilled.1, ?_, ?_, line, cpuFreq, hline, hfreq,
    hfields⟩
  · rw [hlist]; simp [mapLookup]
  · rw [hlist]; simp [mapLookup]
  · rw [hlist]; simp [mapLookup]

/-- C9, on four processors: the two points of a `Read` carry the processor numbers 0 and 2
and the values of the two frequency files. -/
theorem Read_point_of_entry_witness :
    Reachable libPlain {} ∧
    Init libPlain fourCPUs "" {} = (fourCPUsCollector, .ret none) ∧
    Read libPlain fourCPUs fourCPUsCollector =
      [⟨"cpufreq", [("type", "hwthread"), ("type-id", "0"), ("package_id", "0")],
          [("source", "CPUFreqCollector"), ("group", "CPU"), ("unit", "Hz")],
          [("value", 2400000)], 0⟩,
        ⟨"cpufreq", [("type", "hwthread"), ("type-id", "2"), ("package_id", "0")],
          [("source", "CPUFreqCollector"), ("group", "CPU"), ("unit", "Hz")],
          [("value", 2300000)], 0⟩] ∧
    ∀ p ∈ Read libPlain fourCPUs fourCPUsCollector, p.name = "cpufreq" :=
  ⟨.start _ rfl, by decide, by decide, fun p hp =>
    (Read_point_of_entry libPlain fourCPUs "" {} fourCPUsCollector (.start _ rfl) (by decide)
      fourCPUs p hp).1⟩

/-! ## Order of enumeration -/

theorem topologyStep_ok_iff {fs : FS} {cpuDir : String}
    {topology topology' : List CPUFreqCollectorTopology} :
    topologyStep fs cpuDir topology = .ok topology' ↔
      ∃ p, probe fs cpuDir = .ok p ∧ 0 ≤ p.processor_int ∧
        p.processor_int < topology.length ∧
        topology' = topology.set p.processor_int.toNat
          (store p (topology.getD p.processor_int.toNat {})) := by
  unfold topologyStep
  cases hp : probe fs cpuDir with
  | error e => simp
  | ok p =>
    by_cases hr : 0 ≤ p.processor_int ∧ p.processor_int < topology.length
    · simp only [hr, and_self, if_true, Except.ok.injEq]
      constructor
      · rintro rfl; exact ⟨p, rfl, hr.1, hr.2, rfl⟩
      · rintro ⟨q, hq, -, -, rfl⟩; cases hq; rfl
    · simp only [hr, if_false]
      constructor
      · intro h; cases h
      · rintro ⟨q, hq, h1, h2, -⟩; cases hq; exact absurd ⟨h1, h2⟩ hr

theorem topologyStep_error_iff {fs : FS} {cpuDir : String}
    {topology : List CPUFreqCollectorTopology} :
    (∃ stop, topologyStep fs cpuDir topology = .error stop) ↔
      ¬ Completes fs topology.length cpuDir := by
  unfold topologyStep Completes
  cases hp : probe fs cpuDir with
  | error e =>
    dsimp only
    constructor
    · rintro - ⟨q, hq, -⟩; cases hq
    · intro _; exact ⟨_, rfl⟩
  | ok p =>
    dsimp only
    by_cases hr : 0 ≤ p.processor_int ∧ p.processor_int < topology.length
    · rw [if_pos hr]
      constructor
      · rintro ⟨stop, h⟩; cases h
      · intro hn; exact absurd ⟨p, rfl, hr.1, hr.2⟩ hn
    · rw [if_neg hr]
      constructor
      · rintro - ⟨q, hq, h1, h2⟩
        cases hq
        exact hr ⟨h1, h2⟩
      · intro _; exact ⟨_, rfl⟩

/-- The first loop completes exactly when each of its iterations does, and then it
returns the array with every entry written in turn. -/
theorem topologyLoop_none {fs : FS} :
    ∀ (cpuDirs : List String) (topology : List CPUFreqCollectorTopology),
      ((topologyLoop fs cpuDirs topology).2 = none ↔
        ∀ d ∈ cpuDirs, Completes fs topology.length d) ∧
      ((topologyLoop fs cpuDirs topology).2 = none →
        (topologyLoop fs cpuDirs topology).1 = cpuDirs.foldl (writeEntry fs) topology)
  | [], topology => by simp [topologyLoop]
  | cpuDir :: rest, topology => by
    unfold topologyLoop
    cases hs : topologyStep fs cpuDir topology with
    | error stop =>
      have hnot := topologyStep_error_iff.1 ⟨stop, hs⟩
      dsimp only
      simp only [List.mem_cons, forall_eq_or_imp]
      exact ⟨⟨fun h => Option.noConfusion h, fun h => absurd h.1 hnot⟩,
        fun h => Option.noConfusion h⟩
    | ok topology' =>
      have hcomp : Completes fs topology.length cpuDir := by
        by_contra hnot
        obtain ⟨stop, hstop⟩ := topologyStep_error_iff.2 hnot
        rw [hs] at hstop
        cases hstop
      have hw : writeEntry fs topology cpuDir = topology' := by simp [writeEntry, hs]
      have ih := @topologyLoop_none fs rest topology'
      rw [topologyStep_length hs] at ih
      dsimp only
      simp only [List.mem_cons, forall_eq_or_imp, hcomp, true_and, List.foldl_cons, hw]
      exact ih

theorem probe_processor {fs : FS} {cpuDir : String} {p : Probe}
    (h : probe fs cpuDir = .ok p) :
    ParseInt (TrimPrefix cpuDir "/sys/devices/system/cpu/cpu") = .ok p.processor_int := by
  unfold probe at h
  simp only at h
  split at h
  · cases h
  · rename_i n hn
    split at h
    · cases h
    · split at h
      · cases h
      · split at h
        · cases h
        · split at h
          · cases h
          · split at h
            · cases h
            · cases h; exact hn

/-- Two iterations of the first loop on directories with different processor numbers
can be exchanged. -/
theorem writeEntry_comm {fs : FS} {x y : String}
    (hxy : ∀ k : Int, ParseInt (TrimPrefix x "/sys/devices/system/cpu/cpu") = .ok k →
      ParseInt (TrimPrefix y "/sys/devices/system/cpu/cpu") = .ok k → x = y)
    (z : List CPUFreqCollectorTopology) :
    writeEntry fs (writeEntry fs z x) y = writeEntry fs (writeEntry fs z y) x := by
  by_cases hEq : x = y
  · subst hEq; rfl
  · have key : ∀ (u v : String) (w : List CPUFreqCollectorTopology),
        writeEntry fs w u =
          match probe fs u with
          | .ok p =>
            if 0 ≤ p.processor_int ∧ p.processor_int < w.length then
              w.set p.processor_int.toNat (store p (w.getD p.processor_int.toNat {}))
            else w
          | .error _ => w := by
      intro u v w
      unfold writeEntry topologyStep
      cases probe fs u with
      | error e => rfl
      | ok p => by_cases hr : 0 ≤ p.processor_int ∧ p.processor_int < w.length <;> simp [hr]
    rw [key y x (writeEntry fs z x), key x y (writeEntry fs z y), key x y z, key y x z]
    cases hx : probe fs x with
    | error e => simp
    | ok p =>
      cases hy : probe fs y with
      | error e => simp
      | ok q =>
        simp only
        by_cases hp : 0 ≤ p.processor_int ∧ p.processor_int < z.length
        · by_cases hq : 0 ≤ q.processor_int ∧ q.processor_int < z.length
          · have hne : p.processor_int.toNat ≠ q.processor_int.toNat := by
              intro he
              have : p.processor_int = q.processor_int := by omega
              exact hEq (hxy _ (probe_processor hx) (this ▸ probe_processor hy))
            have hget : ∀ (a b : Nat) (t : CPUFreqCollectorTopology), a ≠ b →
                (z.set a t).getD b {} = z.getD b {} := by
              intro a b t hab
              rw [List.getD_eq_getElem?_getD, List.getD_eq_getElem?_getD,
                List.getElem?_set_ne hab]
            simp only [hp, hq, and_self, if_true, List.length_set]
            rw [hget _ _ _ hne, hget _ _ _ (Ne.symm hne)]
            exact List.set_comm _ _ _ hne
          · simp [hp, hq]
        · by_cases hq : 0 ≤ q.processor_int ∧ q.processor_int < z.length
          · simp [hp, hq]
          · simp [hp, hq]

/-- The first loop on two enumerations of the same directories, no two of them with the
same processor number: it completes on both or on neither, with the same array. -/
theorem topologyLoop_perm {fs : FS} {cpuDirs cpuDirs' : List String}
    (hperm : cpuDirs'.Perm cpuDirs)
    (hinj : ∀ x ∈ cpuDirs, ∀ y ∈ cpuDirs, ∀ k : Int,
      ParseInt (TrimPrefix x "/sys/devices/system/cpu/cpu") = .ok k →
      ParseInt (TrimPrefix y "/sys/devices/system/cpu/cpu") = .ok k → x = y)
    (topology : List CPUFreqCollectorTopology) :
    ((topologyLoop fs cpuDirs' topology).2 = none ↔
      (topologyLoop fs cpuDirs topology).2 = none) ∧
    ((topologyLoop fs cpuDirs topology).2 = none →
      (topologyLoop fs cpuDirs' topology).1 = (topologyLoop fs cpuDirs topology).1) := by
  have hiff : (topologyLoop fs cpuDirs' topology).2 = none ↔
      (topologyLoop fs cpuDirs topology).2 = none := by
    rw [(topologyLoop_none cpuDirs' topology).1, (topologyLoop_none cpuDirs topology).1]
    exact ⟨fun h d hd => h d (hperm.mem_iff.2 hd), fun h d hd => h d (hperm.mem_iff.1 hd)⟩
  refine ⟨hiff, fun h => ?_⟩
  rw [(topologyLoop_none cpuDirs' topology).2 (hiff.2 h),
    (topologyLoop_none cpuDirs topology).2 h]
  apply List.Perm.foldl_eq' hperm
  intro x hx y hy z
  exact writeEntry_comm (hinj x (hperm.mem_iff.1 hx) y (hperm.mem_iff.1 hy)) z

/-! ## Canonical decimal names -/

theorem digitValue_digitChar {m : Nat} (h : m < 10) :
    digitValue (Nat.digitChar m) = some m ∧
    48 ≤ (Nat.digitChar m).toNat ∧ (Nat.digitChar m).toNat ≤ 57 := by
  interval_cases m <;> decide

theorem parseDigits_append :
    ∀ (l₁ l₂ : List Char) (a : Nat),
      parseDigits (l₁ ++ l₂) a =
        match parseDigits l₁ a with
        | .ok v => parseDigits l₂ v
        | .error e => .error e
  | [], _, _ => rfl
  | c :: l₁, l₂, a => by
    simp only [List.cons_append, parseDigits]
    cases digitValue c with
    | none => rfl
    | some d =>
      dsimp only
      split
      · exact parseDigits_append l₁ l₂ _
      · rfl

/-- The decimal digits that `Nat.toDigitsCore` puts in front of `ds`: all of them are
digits, and read after the value `a` they give `a` shifted by their number plus `n`. -/
theorem toDigitsCore_parse :
    ∀ (fuel n : Nat) (ds : List Char), n < fuel →
      ∃ l : List Char, Nat.toDigitsCore 10 fuel n ds = l ++ ds ∧
        (∀ c ∈ l, 48 ≤ c.toNat ∧ c.toNat ≤ 57) ∧
        ∀ a k : Nat, parseDigits l a = .ok k → k = a * 10 ^ l.length + n
  | 0, _, _, h => by omega
  | fuel + 1, n, ds, h => by
    have hmod : n % 10 < 10 := Nat.mod_lt _ (by omega)
    obtain ⟨hval, hlo, hhi⟩ := digitValue_digitChar hmod
    have hone : ∀ a k : Nat, parseDigits [Nat.digitChar (n % 10)] a = .ok k →
        k = a * 10 + n % 10 := by
      intro a k hk
      simp only [parseDigits, hval] at hk
      split at hk
      · cases hk; rfl
      · cases hk
    unfold Nat.toDigitsCore
    by_cases h0 : n / 10 = 0
    · refine ⟨[Nat.digitChar (n % 10)], by simp [h0], ?_, ?_⟩
      · intro c hc
        rw [List.mem_singleton.1 hc]
        exact ⟨hlo, hhi⟩
      · intro a k hk
        have := hone a k hk
        have hn : n % 10 = n := Nat.mod_eq_of_lt (by omega)
        simp only [List.length_singleton, pow_one]
        omega
    · obtain ⟨l, hl, hdig, hparse⟩ :=
        toDigitsCore_parse fuel (n / 10) (Nat.digitChar (n % 10) :: ds) (by omega)
      refine ⟨l ++ [Nat.digitChar (n % 10)], by simp [h0, hl], ?_, ?_⟩
      · intro c hc
        rcases List.mem_append.1 hc with hc | hc
        · exact hdig c hc
        · rw [List.mem_singleton.1 hc]; exact ⟨hlo, hhi⟩
      · intro a k hk
        rw [parseDigits_append] at hk
        cases hv : parseDigits l a with
        | error e => rw [hv] at hk; cases hk
        | ok v =>
          rw [hv] at hk
          have h1 := hparse a v hv
          have h2 := hone v k hk
          rw [h2, h1, List.length_append, List.length_singleton, pow_succ]
          have := Nat.div_add_mod n 10
          nlinarith [this]

/-- `ParseInt` reads the canonical decimal name of a natural number back as that number,
where it reads it at all. -/
theorem ParseInt_Sprint {n : Nat} {k : Int} (h : ParseInt (Sprint (n : Int)) = .ok k) :
    k = n := by
  obtain ⟨l, hl, hdig, hparse⟩ := toDigitsCore_parse (n + 1) n [] (by omega)
  have hdata : (Sprint (n : Int)).data = l := by
    rw [List.append_nil] at hl
    rw [← hl]
    rfl
  unfold ParseInt at h
  rw [hdata] at h
  cases l with
  | nil => cases h
  | cons c cs =>
    have hc := hdig c (List.mem_cons_self _ _)
    have hplus : c ≠ '+' := by
      rintro rfl
      exact absurd hc.1 (by decide)
    have hminus : c ≠ '-' := by
      rintro rfl
      exact absurd hc.1 (by decide)
    simp only [hplus, hminus, if_false] at h
    unfold parseSigned ParseUint at h
    cases hu : parseDigits (c :: cs) 0 with
    | error e => simp [hu] at h
    | ok un =>
      simp only [hu] at h
      have hun := hparse 0 un hu
      split at h
      · cases h
      · split at h
        · cases h
        · cases h
          simp at hun
          simp [hun]

theorem TrimPrefix_append (p s : String) : TrimPrefix (p ++ s) p = s := by
  unfold TrimPrefix
  have hpre : p.data.isPrefixOf (p ++ s).data = true := by
    rw [String.data_append, List.isPrefixOf_iff_prefix]
    exact List.prefix_append _ _
  rw [if_pos hpre, String.data_append, List.drop_left]

/-- No two of the canonical directory names carry the same processor number. -/
theorem canonicalDirs_inj (n : Nat) :
    ∀ x ∈ canonicalDirs n, ∀ y ∈ canonicalDirs n, ∀ k : Int,
      ParseInt (TrimPrefix x "/sys/devices/system/cpu/cpu") = .ok k →
      ParseInt (TrimPrefix y "/sys/devices/system/cpu/cpu") = .ok k → x = y := by
  intro x hx y hy k hkx hky
  simp only [canonicalDirs, List.mem_map, List.mem_range] at hx hy
  obtain ⟨i, -, rfl⟩ := hx
  obtain ⟨j, -, rfl⟩ := hy
  rw [TrimPrefix_append] at hkx hky
  have hi := ParseInt_Sprint hkx
  have hj := ParseInt_Sprint hky
  have : i = j := by omega
  rw [this]

theorem probe_congr {fs fs' : FS} (hread : fs'.readFile = fs.readFile)
    (haccess : fs'.access = fs.access) (cpuDir : String) : probe fs' cpuDir = probe fs cpuDir := by
  unfold probe osReadFile unixAccess
  rw [hread, haccess]

theorem topologyLoop_congr {fs fs' : FS} (hread : fs'.readFile = fs.readFile)
    (haccess : fs'.access = fs.access) :
    ∀ (cpuDirs : List String) (topology : List CPUFreqCollectorTopology),
      topologyLoop fs' cpuDirs topology = topologyLoop fs cpuDirs topology
  | [], _ => rfl
  | cpuDir :: rest, topology => by
    unfold topologyLoop topologyStep
    rw [probe_congr hread haccess]
    cases probe fs cpuDir with
    | error e => rfl
    | ok p =>
      dsimp only
      split
      · rfl
      · exact topologyLoop_congr hread haccess rest _

theorem topologyStep_classification {fs : FS} {cpuDir : String}
    {topology topology' : List CPUFreqCollectorTopology}
    (h : topologyStep fs cpuDir topology = .ok topology') :
    topology'.map classification = topology.map classification := by
  obtain ⟨p, -, h0, hlt, rfl⟩ := topologyStep_ok_iff.1 h
  have hk : p.processor_int.toNat < topology.length := by omega
  apply List.ext_getElem?
  intro i
  rw [List.getElem?_map, List.getElem?_map, List.getElem?_set]
  by_cases hi : p.processor_int.toNat = i
  · subst hi
    rw [if_pos rfl, if_pos hk, List.getElem?_eq_getElem hk, List.getD_eq_getElem _ _ hk]
    rfl
  · rw [if_neg hi]

theorem topologyLoop_classification {fs : FS} :
    ∀ (cpuDirs : List String) (topology : List CPUFreqCollectorTopology),
      (topologyLoop fs cpuDirs topology).1.map classification = topology.map classification
  | [], _ => rfl
  | cpuDir :: rest, topology => by
    unfold topologyLoop
    cases hs : topologyStep fs cpuDir topology with
    | error stop => rfl
    | ok topology' =>
      dsimp only
      rw [topologyLoop_classification rest topology', topologyStep_classification hs]

/-- C10: the result of `Init` does not depend on the order in which the processor
directories are enumerated. For the directories with the numbers `0` to `n - 1` in
canonical decimal, enumerated in any two orders over the same file contents, `Init`
succeeds on both or on neither; when it succeeds it leaves the same collector, hence the
same topology array; and in every case the two arrays have the same `isHT` flag, counts
and tags at every index. -/
theorem Init_enumeration_order (L : Lib) (fs fs' : FS) (config : String) (m : CPUFreqCollector)
    (n : Nat) (cpuDirs cpuDirs' : List String)
    (hread : fs'.readFile = fs.readFile) (haccess : fs'.access = fs.access)
    (hglob : fs.glob (Join2 "/sys/devices/system/cpu" "cpu[0-9]*") = .ok cpuDirs)
    (hglob' : fs'.glob (Join2 "/sys/devices/system/cpu" "cpu[0-9]*") = .ok cpuDirs')
    (hcanon : cpuDirs.Perm (canonicalDirs n)) (hperm : cpuDirs'.Perm cpuDirs) :
    ((Init L fs' config m).2 = .ret none ↔ (Init L fs config m).2 = .ret none) ∧
    ((Init L fs config m).2 = .ret none →
      (Init L fs' config m).1 = (Init L fs config m).1 ∧
      (Init L fs' config m).1.topology = (Init L fs config m).1.topology) ∧
    (Init L fs' config m).1.topology.map classification =
      (Init L fs config m).1.topology.map classification := by
  suffices hmain : ((Init L fs' config m).2 = .ret none ↔ (Init L fs config m).2 = .ret none) ∧
      ((Init L fs config m).2 = .ret none →
        (Init L fs' config m).1 = (Init L fs config m).1) ∧
      (Init L fs' config m).1.topology.map classification =
        (Init L fs config m).1.topology.map classification from
    ⟨hmain.1, fun h => ⟨hmain.2.1 h, by rw [hmain.2.1 h]⟩, hmain.2.2⟩
  by_cases hm : m.init = true
  · simp [Init_of_init, hm]
  · have hm' : m.init = false := by simpa using hm
    have hinj : ∀ x ∈ cpuDirs, ∀ y ∈ cpuDirs, ∀ k : Int,
        ParseInt (TrimPrefix x "/sys/devices/system/cpu/cpu") = .ok k →
        ParseInt (TrimPrefix y "/sys/devices/system/cpu/cpu") = .ok k → x = y :=
      fun x hx y hy => canonicalDirs_inj n x (hcanon.mem_iff.1 hx) y (hcanon.mem_iff.1 hy)
    have hloop := @topologyLoop_perm fs _ _ hperm hinj (List.replicate cpuDirs.length {})
    have hcl := @topologyLoop_classification fs cpuDirs (List.replicate cpuDirs.length {})
    have hcl' := @topologyLoop_classification fs cpuDirs' (List.replicate cpuDirs.length {})
    unfold Init
    simp only [hm', Bool.false_eq_true, if_false]
    generalize (if config.length > 0 then L.unmarshal config m.config else (m.config, none)) =
      parsed
    obtain ⟨c, e⟩ := parsed
    cases e with
    | some e => simp
    | none =>
      simp only [hglob, hglob']
      by_cases hne : cpuDirs = []
      · have hne' : cpuDirs' = [] := by
          rw [hne] at hperm
          exact List.Perm.eq_nil hperm
        simp [hne, hne']
      · have hne' : cpuDirs' ≠ [] := by
          intro h0
          rw [h0] at hperm
          exact hne (List.Perm.eq_nil hperm.symm)
        simp only [hne, hne', if_false]
        rw [topologyLoop_congr hread haccess, hperm.length_eq]
        generalize hr : topologyLoop fs cpuDirs (List.replicate cpuDirs.length {}) = r
          at hloop hcl
        generalize hr' : topologyLoop fs cpuDirs' (List.replicate cpuDirs.length {}) = r'
          at hloop hcl'
        obtain ⟨t, s⟩ := r
        obtain ⟨t', s'⟩ := r'
        cases s with
        | some stop =>
          have hstop := topologyLoop_stop_ne_nil _ _ _ _ hr
          cases s' with
          | some stop' =>
            have hstop' := topologyLoop_stop_ne_nil _ _ _ _ hr'
            simp only at hcl hcl'
            simp [hstop, hstop', hcl, hcl']
          | none =>
            have := hloop.1.1 rfl
            cases this
        | none =>
          cases s' with
          | some stop' =>
            have := hloop.1.2 rfl
            cases this
          | none =>
            have := hloop.2 rfl
            simp only at this
            simp [this]

/-- C10, on four processors enumerated as 2, 0, 3, 1 and as 0, 1, 2, 3: `Init` succeeds
on both and leaves the same collector. -/
theorem Init_enumeration_order_witness :
    fourCPUsShuffled.readFile = fourCPUs.readFile ∧
    fourCPUsShuffled.access = fourCPUs.access ∧
    fourCPUs.glob (Join2 "/sys/devices/system/cpu" "cpu[0-9]*") = .ok (canonicalDirs 4) ∧
    fourCPUsShuffled.glob (Join2 "/sys/devices/system/cpu" "cpu[0-9]*") =
      .ok ["/sys/devices/system/cpu/cpu2", "/sys/devices/system/cpu/cpu0",
        "/sys/devices/system/cpu/cpu3", "/sys/devices/system/cpu/cpu1"] ∧
    ["/sys/devices/system/cpu/cpu2", "/sys/devices/system/cpu/cpu0",
      "/sys/devices/system/cpu/cpu3", "/sys/devices/system/cpu/cpu1"].Perm (canonicalDirs 4) ∧
    (Init libPlain fourCPUs "" {}).2 = .ret none ∧
    (Init libPlain fourCPUsShuffled "" {}).2 = .ret none ∧
    (Init libPlain fourCPUsShuffled "" {}).1 = (Init libPlain fourCPUs "" {}).1 ∧
    (Init libPlain fourCPUsShuffled "" {}).1.topology =
      (Init libPlain fourCPUs "" {}).1.topology ∧
    (Init libPlain fourCPUsShuffled "" {}).1.topology.map classification =
      (Init libPlain fourCPUs "" {}).1.topology.map classification :=
  have h := Init_enumeration_order libPlain fourCPUs fourCPUsShuffled "" {} 4 (canonicalDirs 4)
    ["/sys/devices/system/cpu/cpu2", "/sys/devices/system/cpu/cpu0",
      "/sys/devices/system/cpu/cpu3", "/sys/devices/system/cpu/cpu1"]
    rfl rfl rfl rfl (List.Perm.refl _) (by decide)
  ⟨rfl, rfl, rfl, rfl, by decide, by decide, h.1.2 (by decide), (h.2.1 (by decide)).1,
    (h.2.1 (by decide)).2, h.2.2⟩

end CPUFreq
